import Mathlib

/-!
Verification development for the fprettify reformatting engine
(`src/fprettify/__init__.py`).  The Python source is shallowly embedded:
pure text transforms become Lean functions on `List Char`, the regular
expressions of the source become terms of a small regex language `Re`
evaluated by Brzozowski derivatives, stateful scans become explicit folds,
and Python exceptions become `Except`/`Option` results.
-/

namespace Fprettify

/-- The single-quote character (written by code to avoid escaping). -/
def squote : Char := Char.ofNat 39

/-- Python `\w` (ASCII portion): letters, digits, underscore. -/
def isWordChar (c : Char) : Bool := c.isAlpha || c.isDigit || c == '_'

/-- Python `\s`: space, tab, newline, carriage return, vertical tab, form feed. -/
def isSpaceChar (c : Char) : Bool :=
  c == ' ' || c == '\t' || c == '\n' || c == '\r' || c.val == 11 || c.val == 12

/-- Python `str.lstrip(' ')`. -/
def lstripSp (s : List Char) : List Char := s.dropWhile (· == ' ')

/-- Python `str.rstrip(' ')`. -/
def rstripSp (s : List Char) : List Char := (s.reverse.dropWhile (· == ' ')).reverse

/-- Python `str.strip(' ')`. -/
def stripSp (s : List Char) : List Char := rstripSp (lstripSp s)

/-- Python `str.strip()` (all whitespace). -/
def stripWs (s : List Char) : List Char :=
  ((s.dropWhile isSpaceChar).reverse.dropWhile isSpaceChar).reverse

/-- Python `str.strip('&')`. -/
def stripAmp (s : List Char) : List Char :=
  ((s.dropWhile (· == '&')).reverse.dropWhile (· == '&')).reverse

/-- Python slice `s[a:b]` with negative-index wrap-around semantics. -/
def pySlice (s : List Char) (a b : Int) : List Char :=
  let n : Int := s.length
  let a' : Int := if a < 0 then max 0 (n + a) else min a n
  let b' : Int := if b < 0 then max 0 (n + b) else min b n
  (s.take b'.toNat).drop a'.toNat

/-- Python indexing `s[i]` (possibly negative); `none` models `IndexError`. -/
def pyGet (s : List Char) (i : Int) : Option Char :=
  if i < 0 then s.get? (s.length + i).toNat else s.get? i.toNat

/-- Python slice `s[a:]`. -/
def pyDrop (s : List Char) (a : Int) : List Char := pySlice s a s.length

/-- Python slice `s[:b]`. -/
def pyTake (s : List Char) (b : Int) : List Char := pySlice s 0 b

/-- Python `' ' * n` for possibly negative `n`. -/
def spaces (n : Int) : List Char := List.replicate n.toNat ' '

/-- Python `l.startswith(p)` on char lists. -/
def startsWithL (s p : List Char) : Bool := s.take p.length == p

/-- Python `l.endswith(p)` on char lists. -/
def endsWithL (s p : List Char) : Bool := s.drop (s.length - p.length) == p && p.length ≤ s.length

/-!
## CharFilter

Modelled from the spec: the comment/string-aware character iterator
(`fparse_utils.CharFilter`, an external collaborator not under `src/`).
Per the spec (§4.3, §OUT OF SCOPE) it enumerates the `(position, char)`
pairs of a line while excluding string-literal contents and trailing
comments from structural scanning: iteration stops at an unquoted `!`,
characters inside a string literal (and the opening quote) are skipped,
and the closing quote is delivered again.
-/

/-- One step state for `charFilterList`: current string-quote context. -/
def charFilterAux : List Char → Nat → Option Char → List (Nat × Char)
  | [], _, _ => []
  | c :: rest, pos, instring =>
    match instring with
    | none =>
      if c == '!' then []
      else if c == '"' || c == squote then charFilterAux rest (pos + 1) (some c)
      else (pos, c) :: charFilterAux rest (pos + 1) none
    | some q =>
      if c == q then (pos, c) :: charFilterAux rest (pos + 1) none
      else charFilterAux rest (pos + 1) (some q)

/-- Modelled from the spec: the filtered `(pos, char)` stream of a line. -/
def charFilterList (s : List Char) : List (Nat × Char) := charFilterAux s 0 none

/-!
## Regex engine

The Python source drives everything with `re` patterns compiled with
`RE_FLAGS` (case-insensitive).  We embed the needed patterns in a small
regex language and decide matching with Brzozowski derivatives; `$` at the
end of a pattern is realised by `acceptsEnd` (match to end of string, or
to just before one trailing newline, as in Python `re.search` without
`MULTILINE`).
-/

inductive Re where
  | emp : Re
  | eps : Re
  | cls : (Char → Bool) → Re
  | seq : Re → Re → Re
  | alt : Re → Re → Re
  | star : Re → Re

def Re.nullable : Re → Bool
  | .emp => false
  | .eps => true
  | .cls _ => false
  | .seq a b => a.nullable && b.nullable
  | .alt a b => a.nullable || b.nullable
  | .star _ => true

/-- Smart sequencing (collapses the empty language and ε). -/
def Re.seqS : Re → Re → Re
  | .emp, _ => .emp
  | .eps, b => b
  | a, b =>
    match b with
    | .emp => .emp
    | .eps => a
    | _ => .seq a b

/-- Smart alternation (collapses the empty language). -/
def Re.altS : Re → Re → Re
  | .emp, b => b
  | a, b =>
    match b with
    | .emp => a
    | _ => .alt a b

def Re.deriv : Re → Char → Re
  | .emp, _ => .emp
  | .eps, _ => .emp
  | .cls p, c => if p c then .eps else .emp
  | .seq a b, c =>
    if a.nullable then Re.altS (Re.seqS (a.deriv c) b) (b.deriv c)
    else Re.seqS (a.deriv c) b
  | .alt a b, c => Re.altS (a.deriv c) (b.deriv c)
  | .star a, c => Re.seqS (a.deriv c) (.star a)

/-- Whole-list match. -/
def Re.acceptsL : Re → List Char → Bool
  | r, [] => r.nullable
  | r, c :: s => (r.deriv c).acceptsL s

/-- Does the pattern match some prefix of the list? -/
def Re.matchesPre : Re → List Char → Bool
  | r, [] => r.nullable
  | r, c :: s => r.nullable || (r.deriv c).matchesPre s

/-- `$`-terminated match: to the end, or to just before one trailing newline. -/
def Re.acceptsEnd (r : Re) (s : List Char) : Bool :=
  r.acceptsL s || (s.getLast? == some '\n' && r.acceptsL s.dropLast)

/-- All suffixes of a list, the empty suffix included. -/
def tailsL : List Char → List (List Char)
  | [] => [[]]
  | c :: s => (c :: s) :: tailsL s

/-- Unanchored `re.search` for a pattern without `$`. -/
def Re.searchPre (r : Re) (s : List Char) : Bool := (tailsL s).any r.matchesPre

/-- Unanchored `re.search` for a `$`-terminated pattern. -/
def Re.searchEnd (r : Re) (s : List Char) : Bool := (tailsL s).any r.acceptsEnd

/-- A case-insensitive literal character. -/
def rch (c : Char) : Re := .cls (fun x => x.toLower == c.toLower)

/-- A case-insensitive literal string. -/
def rstr (s : String) : Re := (s.data.map rch).foldr Re.seq .eps

/-- Concatenation of a pattern list. -/
def rcat (l : List Re) : Re := l.foldr Re.seq .eps

def ropt (r : Re) : Re := .alt r .eps

def rplus (r : Re) : Re := .seq r (.star r)

/-- `\w` -/
def wch : Re := .cls isWordChar

/-- `\s` -/
def sch : Re := .cls isSpaceChar

/-- `\s*` -/
def sstar : Re := .star sch

/-- `\s+` -/
def splus : Re := rplus sch

/-- `.` (any char but newline) -/
def dotch : Re := .cls (fun c => c != '\n')

/-!
### The statement-classifier patterns (transliterated from the source
constants of the same names).  `EOL_STR = \s*;?\s*$`, `SOL_STR = ^\s*`, and
the trailing `$` is applied by using `acceptsEnd` on these anchored
patterns.
-/

/-- `\s*;?\s*` (the `$` is supplied by `acceptsEnd`). -/
def EOL_re : Re := rcat [sstar, ropt (rch ';'), sstar]

/-- `IF_RE = ^\s*(\w+\s*:)?\s*IF\s*\(.+\)\s*THEN` + EOL -/
def IF_RE : Re :=
  rcat [sstar, ropt (rcat [rplus wch, sstar, rch ':']), sstar, rstr "IF", sstar,
        rch '(', rplus dotch, rch ')', sstar, rstr "THEN", EOL_re]

/-- `ELSE_RE = ^\s*ELSE(\s*IF\s*\(.+\)\s*THEN)?` + EOL -/
def ELSE_RE : Re :=
  rcat [sstar, rstr "ELSE",
        ropt (rcat [sstar, rstr "IF", sstar, rch '(', rplus dotch, rch ')', sstar, rstr "THEN"]),
        EOL_re]

/-- `ENDIF_RE = ^\s*END\s*IF(\s+\w+)?` + EOL -/
def ENDIF_RE : Re :=
  rcat [sstar, rstr "END", sstar, rstr "IF", ropt (rcat [splus, rplus wch]), EOL_re]

/-- The `EOL`-branch of `DO_RE = ^\s*(\w+\s*:)?\s*DO(EOL|\s)`. -/
def DO_RE_eol : Re :=
  rcat [sstar, ropt (rcat [rplus wch, sstar, rch ':']), sstar, rstr "DO", EOL_re]

/-- The `\s`-branch of `DO_RE`. -/
def DO_RE_sp : Re :=
  rcat [sstar, ropt (rcat [rplus wch, sstar, rch ':']), sstar, rstr "DO", sch]

/-- `re.search` of `DO_RE` (the alternation mixes a `$`-ended branch with a
plain one, so the two branches use the two search modes). -/
def DO_RE_search (s : List Char) : Bool := DO_RE_eol.acceptsEnd s || DO_RE_sp.matchesPre s

/-- `ENDDO_RE = ^\s*END\s*DO(\s+\w+)?` + EOL -/
def ENDDO_RE : Re :=
  rcat [sstar, rstr "END", sstar, rstr "DO", ropt (rcat [splus, rplus wch]), EOL_re]

/-- `SELCASE_RE = ^\s*SELECT\s*CASE\s*\(.+\)` + EOL -/
def SELCASE_RE : Re :=
  rcat [sstar, rstr "SELECT", sstar, rstr "CASE", sstar, rch '(', rplus dotch, rch ')', EOL_re]

/-- `CASE_RE = ^\s*CASE\s*(\(.+\)|DEFAULT)` + EOL -/
def CASE_RE : Re :=
  rcat [sstar, rstr "CASE", sstar,
        .alt (rcat [rch '(', rplus dotch, rch ')']) (rstr "DEFAULT"), EOL_re]

/-- `ENDSEL_RE = ^\s*END\s*SELECT` + EOL -/
def ENDSEL_RE : Re := rcat [sstar, rstr "END", sstar, rstr "SELECT", EOL_re]

/-- `[^"'!]` -/
def notQuoteBang : Re := .cls (fun c => !(c == '"' || c == squote || c == '!'))

/-- `SUBR_RE = ^([^"'!]* )?SUBROUTINE\s+\w+\s*(\(.*\))?` + EOL -/
def SUBR_RE : Re :=
  rcat [ropt (rcat [.star notQuoteBang, rch ' ']), rstr "SUBROUTINE", splus, rplus wch,
        sstar, ropt (rcat [rch '(', .star dotch, rch ')']), EOL_re]

/-- `ENDSUBR_RE = ^\s*END\s*SUBROUTINE(\s+\w+)?` + EOL -/
def ENDSUBR_RE : Re :=
  rcat [sstar, rstr "END", sstar, rstr "SUBROUTINE", ropt (rcat [splus, rplus wch]), EOL_re]

/-- `FCT_RE = ^([^"'!]* )?FUNCTION\s+\w+\s*(\(.*\))?(\s*RESULT\s*\(\w+\))?` + EOL -/
def FCT_RE : Re :=
  rcat [ropt (rcat [.star notQuoteBang, rch ' ']), rstr "FUNCTION", splus, rplus wch,
        sstar, ropt (rcat [rch '(', .star dotch, rch ')']),
        ropt (rcat [sstar, rstr "RESULT", sstar, rch '(', rplus wch, rch ')']), EOL_re]

/-- `ENDFCT_RE = ^\s*END\s*FUNCTION(\s+\w+)?` + EOL -/
def ENDFCT_RE : Re :=
  rcat [sstar, rstr "END", sstar, rstr "FUNCTION", ropt (rcat [splus, rplus wch]), EOL_re]

/-- `MOD_RE = ^\s*MODULE\s+\w+` + EOL -/
def MOD_RE : Re := rcat [sstar, rstr "MODULE", splus, rplus wch, EOL_re]

/-- `ENDMOD_RE = ^\s*END\s*MODULE(\s+\w+)?` + EOL -/
def ENDMOD_RE : Re :=
  rcat [sstar, rstr "END", sstar, rstr "MODULE", ropt (rcat [splus, rplus wch]), EOL_re]

/-- `TYPE_RE = ^\s*TYPE(\s*,\s*(BIND\s*\(\s*C\s*\)|EXTENDS\s*\(.*\)))?(\s*::\s*|\s+)\w+` + EOL -/
def TYPE_RE : Re :=
  rcat [sstar, rstr "TYPE",
        ropt (rcat [sstar, rch ',', sstar,
          .alt (rcat [rstr "BIND", sstar, rch '(', sstar, rstr "C", sstar, rch ')'])
               (rcat [rstr "EXTENDS", sstar, rch '(', .star dotch, rch ')'])]),
        .alt (rcat [sstar, rstr "::", sstar]) splus, rplus wch, EOL_re]

/-- `ENDTYPE_RE = ^\s*END\s*TYPE(\s+\w+)?` + EOL -/
def ENDTYPE_RE : Re :=
  rcat [sstar, rstr "END", sstar, rstr "TYPE", ropt (rcat [splus, rplus wch]), EOL_re]

/-- `PROG_RE = ^\s*PROGRAM\s+\w+` + EOL -/
def PROG_RE : Re := rcat [sstar, rstr "PROGRAM", splus, rplus wch, EOL_re]

/-- `ENDPROG_RE = ^\s*END\s*PROGRAM(\s+\w+)?` + EOL -/
def ENDPROG_RE : Re :=
  rcat [sstar, rstr "END", sstar, rstr "PROGRAM", ropt (rcat [splus, rplus wch]), EOL_re]

/-- `INTERFACE_RE = ^([^"'!]* )?INTERFACE(\s+\w+)?` + EOL -/
def INTERFACE_RE : Re :=
  rcat [ropt (rcat [.star notQuoteBang, rch ' ']), rstr "INTERFACE",
        ropt (rcat [splus, rplus wch]), EOL_re]

/-- `ENDINTERFACE_RE = ^\s*END\s*INTERFACE(\s+\w+)?` + EOL -/
def ENDINTERFACE_RE : Re :=
  rcat [sstar, rstr "END", sstar, rstr "INTERFACE", ropt (rcat [splus, rplus wch]), EOL_re]

/-- `CONTAINS_RE = ^\s*CONTAINS` + EOL -/
def CONTAINS_RE : Re := rcat [sstar, rstr "CONTAINS", EOL_re]

/-- `ENUM_RE = ^\s*ENUM(\s*,\s*(BIND\s*\(\s*C\s*\)))?(\s*::\s*|\s+)\w+` + EOL -/
def ENUM_RE : Re :=
  rcat [sstar, rstr "ENUM",
        ropt (rcat [sstar, rch ',', sstar, rstr "BIND", sstar, rch '(', sstar, rstr "C",
                    sstar, rch ')']),
        .alt (rcat [sstar, rstr "::", sstar]) splus, rplus wch, EOL_re]

/-- `ENDENUM_RE = ^\s*END\s*ENUM(\s+\w+)?` + EOL -/
def ENDENUM_RE : Re :=
  rcat [sstar, rstr "END", sstar, rstr "ENUM", ropt (rcat [splus, rplus wch]), EOL_re]

/-- `PUBLIC_RE = ^\s*PUBLIC\s*::` (no `$`; used with `re.match`). -/
def PUBLIC_RE : Re := rcat [sstar, rstr "PUBLIC", sstar, rstr "::"]

/-- `EMPTY_RE = ^\s*(![^\$].*)?$` (blank line or non-OMP comment line). -/
def EMPTY_RE : Re :=
  rcat [sstar, ropt (rcat [rch '!', .cls (fun c => c != '$'), .star dotch])]

/-- `re.search(NEW_SCOPE_RE[n], s)` for each subunit kind `n` (0..9), in the
source's order IF, DO, SELCASE, SUBR, FCT, MOD, PROG, INTERFACE, TYPE, ENUM. -/
def NEW_SCOPE_search (n : Nat) (s : List Char) : Bool :=
  match n with
  | 0 => IF_RE.acceptsEnd s
  | 1 => DO_RE_search s
  | 2 => SELCASE_RE.acceptsEnd s
  | 3 => SUBR_RE.acceptsEnd s
  | 4 => FCT_RE.acceptsEnd s
  | 5 => MOD_RE.acceptsEnd s
  | 6 => PROG_RE.acceptsEnd s
  | 7 => INTERFACE_RE.acceptsEnd s
  | 8 => TYPE_RE.acceptsEnd s
  | _ => ENUM_RE.acceptsEnd s

/-- `re.search(CONTINUE_SCOPE_RE[n], s)`; entries 1, 7 and 9 are `None`. -/
def CONTINUE_SCOPE_search (n : Nat) (s : List Char) : Bool :=
  match n with
  | 0 => ELSE_RE.acceptsEnd s
  | 1 => false
  | 2 => CASE_RE.acceptsEnd s
  | 3 => CONTAINS_RE.acceptsEnd s
  | 4 => CONTAINS_RE.acceptsEnd s
  | 5 => CONTAINS_RE.acceptsEnd s
  | 6 => CONTAINS_RE.acceptsEnd s
  | 7 => false
  | 8 => CONTAINS_RE.acceptsEnd s
  | _ => false

/-- `re.search(END_SCOPE_RE[n], s)`. -/
def END_SCOPE_search (n : Nat) (s : List Char) : Bool :=
  match n with
  | 0 => ENDIF_RE.acceptsEnd s
  | 1 => ENDDO_RE.acceptsEnd s
  | 2 => ENDSEL_RE.acceptsEnd s
  | 3 => ENDSUBR_RE.acceptsEnd s
  | 4 => ENDFCT_RE.acceptsEnd s
  | 5 => ENDMOD_RE.acceptsEnd s
  | 6 => ENDPROG_RE.acceptsEnd s
  | 7 => ENDINTERFACE_RE.acceptsEnd s
  | 8 => ENDTYPE_RE.acceptsEnd s
  | _ => ENDENUM_RE.acceptsEnd s

/-- The kinds appended to the scope stack by the new-scope loop: every `n`
whose opening pattern matches and whose own closing pattern does not. -/
def newMatches (s : List Char) : List Nat :=
  (List.range 10).filter (fun n => NEW_SCOPE_search n s && !END_SCOPE_search n s)

/-- The kinds whose continuation pattern matches. -/
def conMatches (s : List Char) : List Nat :=
  (List.range 10).filter (fun n => CONTINUE_SCOPE_search n s)

/-- The kinds whose closing pattern matches. -/
def endMatches (s : List Char) : List Nat :=
  (List.range 10).filter (fun n => END_SCOPE_search n s)

/-!
## Python exceptions

`fprettifyInternalException`, `fprettifyParseException` and a raw Python
`IndexError` (an unguarded negative index on a too-short list) are the
three ways the embedded code can abort. -/

inductive PyErr where
  | internalException
  | parseException
  | indexError
  | notImplementedError
deriving DecidableEq, Repr

/-- `l[-k]` as an `Option` (so that `IndexError` can be modelled). -/
def negGetI (l : List Int) (k : Nat) : Option Int :=
  if 0 < k && k ≤ l.length then l.get? (l.length - k) else none

/-- Python `l[-1] = x` on a nonempty list. -/
def setLast (l : List Int) (x : Int) : List Int := l.dropLast ++ [x]

/-!
## The relational-operator pattern

`REL_OP_RE = \s*(\.(EQ|NE|LT|LE|GT|GE)\.|(==|\/=|<(?!=)|<=|(?<!=)>(?!=)|>=))\s*`.
It is only ever applied (via `search` or `match`) to short windows around
an `=` character, so it is hand-translated with its look-arounds. -/

/-- Does a relational operator start at position `i` of `w`? -/
def relOpAt (w : List Char) (i : Nat) : Bool :=
  let g : Nat → Option Char := fun j => (w.get? j).map Char.toLower
  (g i == some '.' && g (i + 3) == some '.' &&
    ((g (i+1) == some 'e' && g (i+2) == some 'q') ||
     (g (i+1) == some 'n' && g (i+2) == some 'e') ||
     (g (i+1) == some 'l' && g (i+2) == some 't') ||
     (g (i+1) == some 'l' && g (i+2) == some 'e') ||
     (g (i+1) == some 'g' && g (i+2) == some 't') ||
     (g (i+1) == some 'g' && g (i+2) == some 'e'))) ||
  (g i == some '=' && g (i+1) == some '=') ||
  (g i == some '/' && g (i+1) == some '=') ||
  (g i == some '<') ||
  (g i == some '>' &&
    (g (i+1) == some '=' || (decide (i = 0) || !(g (i-1) == some '=')) && !(g (i+1) == some '=')))

/-- `re.search(REL_OP_RE, w)`. -/
def relOpSearchL (w : List Char) : Bool := (List.range w.length).any (relOpAt w)

/-- `re.match(REL_OP_RE, w)`: leading `\s*` then an operator. -/
def relOpMatchL (w : List Char) : Bool := relOpAt w (w.takeWhile isSpaceChar).length

/-!
## Delimiter tokens

`DEL_OPEN_RE = (\(\/?|\[)` and `DEL_CLOSE_RE = (\/?\)|\])`, always matched
against the two-character window `line[pos:pos+2]`. -/

/-- `re.match(DEL_OPEN_RE, w)`: the matched token, if any. -/
def delOpenMatch (w : List Char) : Option (List Char) :=
  match w with
  | '(' :: '/' :: _ => some ['(', '/']
  | '(' :: _ => some ['(']
  | '[' :: _ => some ['[']
  | _ => none

/-- `re.match(DEL_CLOSE_RE, w)`: the matched token, if any. -/
def delCloseMatch (w : List Char) : Option (List Char) :=
  match w with
  | '/' :: ')' :: _ => some ['/', ')']
  | ')' :: _ => some [')']
  | ']' :: _ => some [']']
  | _ => none

/-- `LINEBREAK_STR = (&)[\s]*(?:!.*)?$` -/
def LINEBREAK_re : Re := rcat [rch '&', sstar, ropt (rcat [rch '!', .star dotch])]

/-- `re.search(r"=>?\s*" + LINEBREAK_STR, line)` -/
def eqLinebreak_search (line : List Char) : Bool :=
  (rcat [rch '=', ropt (rch '>'), sstar, LINEBREAK_re]).searchEnd line

/-- `re.search(r"::\s*" + LINEBREAK_STR, line)` -/
def declLinebreak_search (line : List Char) : Bool :=
  (rcat [rstr "::", sstar, LINEBREAK_re]).searchEnd line

/-- `re.search(DEL_OPEN_STR + r"\s*" + LINEBREAK_STR, line)` -/
def delOpenLinebreak_search (line : List Char) : Bool :=
  (rcat [.alt (rcat [rch '(', ropt (rch '/')]) (rch '['), sstar, LINEBREAK_re]).searchEnd line

/-- Modelled from the spec: `fparse_utils.VAR_DECL_RE` (external collaborator,
not under `src/`), which detects "variable/attribute declarations" for the
aligner's declaration mode (§4.3).  A line is a declaration when, after
leading blanks, it starts with a type keyword. -/
def VAR_DECL_match (s : List Char) : Bool :=
  let t := s.dropWhile isSpaceChar
  ["LOGICAL", "CHARACTER", "REAL", "COMPLEX", "INTEGER", "TYPE("].any
    (fun kw => (t.take kw.length).map Char.toLower == kw.data.map Char.toLower)

/-!
## F90Aligner

`F90Aligner.__align_line_continuations` is a scan over the filtered
characters of one physical fragment; `F90Aligner.process_lines_of_fline`
folds it over all fragments of one logical line.  The source's `instring`
variable is always the empty string at this point (`CharFilter` already
removed string contents), so the `not instring` guards are omitted. -/

/-- Scan state of `__align_line_continuations` (names as in the source). -/
structure AlignScanSt where
  indentList : List Int
  level : Nat
  posEq : Nat
  posLdelim : List Nat
  ldelim : List (List Char)
  posRdelim : List Nat
  rdelim : List (List Char)
  endOfDelim : Int
deriving DecidableEq, Repr

/-- One character step of the `__align_line_continuations` scan. -/
def alignStep (line : List Char) (isDecl : Bool) (relInd : Int)
    (st : AlignScanSt) (pc : Nat × Char) : Except PyErr AlignScanSt :=
  let pos := pc.1
  let char := pc.2
  let w := pySlice line pos (pos + 2)
  let whatDelOpen := if (pos : Int) == st.endOfDelim then none else delOpenMatch w
  let whatDelClose := if (pos : Int) == st.endOfDelim then none else delCloseMatch w
  let st :=
    match whatDelOpen with
    | some tok =>
      { st with
        endOfDelim := (pos : Int) + tok.length - 1
        level := st.level + 1
        indentList := st.indentList ++ [(pos : Int) + tok.length + relInd]
        posLdelim := st.posLdelim ++ [pos]
        ldelim := st.ldelim ++ [tok] }
    | none => st
  let st :=
    match whatDelClose with
    | some tok =>
      let st := { st with endOfDelim := (pos : Int) + tok.length - 1 }
      let st :=
        if st.level > 0 then
          { st with level := st.level - 1, indentList := st.indentList.dropLast }
        else st
      if st.posLdelim.isEmpty then
        { st with posRdelim := st.posRdelim ++ [pos], rdelim := st.rdelim ++ [tok] }
      else
        { st with posLdelim := st.posLdelim.dropLast, ldelim := st.ldelim.dropLast }
    | none => st
  if st.level == 0 then
    if !isDecl && char == '=' then
      (if !relOpMatchL (pySlice line (max 0 ((pos : Int) - 1))
            (min ((pos : Int) + 2) line.length)) then
        (if st.posEq > 0 then
          .error .internalException
        else
          match pyGet line ((pos : Int) + 1) with
          | none => .error .indexError
          | some c1 =>
            let isPointer : Int := if c1 == '>' then 1 else 0
            let posEq := pos + 1
            if !eqLinebreak_search line then
              .ok { st with
                      posEq := posEq,
                      indentList := st.indentList ++
                        [(posEq : Int) + 1 + isPointer + st.indentList.getLastD 0] }
            else .ok { st with posEq := posEq })
      else .ok st)
    else if isDecl && w == [':', ':'] then
      (if !declLinebreak_search line then
        .ok { st with indentList := st.indentList ++ [(pos : Int) + 3 + st.indentList.getLastD 0] }
      else .ok st)
    else .ok st
  else .ok st

/-- State for counting top-level assignment operators: the delimiter
nesting level and token bookkeeping of the aligner scan, plus a counter. -/
structure CntSt where
  level : Nat
  endOfDelim : Int
  cnt : Nat
deriving DecidableEq, Repr

/-- One character step of the top-level-assignment count: mirrors the
delimiter-level tracking of `alignStep` and counts each `=` that is outside
all delimiters, not adjacent to a relational operator, and outside
declaration mode. -/
def cntStep (line : List Char) (isDecl : Bool) (st : CntSt) (pc : Nat × Char) : CntSt :=
  let pos := pc.1
  let char := pc.2
  let w := pySlice line pos (pos + 2)
  let whatDelOpen := if (pos : Int) == st.endOfDelim then none else delOpenMatch w
  let whatDelClose := if (pos : Int) == st.endOfDelim then none else delCloseMatch w
  let st :=
    match whatDelOpen with
    | some tok => { st with endOfDelim := (pos : Int) + tok.length - 1, level := st.level + 1 }
    | none => st
  let st :=
    match whatDelClose with
    | some tok =>
      let st := { st with endOfDelim := (pos : Int) + tok.length - 1 }
      if st.level > 0 then { st with level := st.level - 1 } else st
    | none => st
  if st.level == 0 then
    if !isDecl && char == '=' then
      if !relOpMatchL (pySlice line (max 0 ((pos : Int) - 1))
          (min ((pos : Int) + 2) line.length)) then
        { st with cnt := st.cnt + 1 }
      else st
    else st
  else st

/-- The number of top-level assignment operators of one fragment. -/
def countTopLevelAssign (line : List Char) (isDecl : Bool) : Nat :=
  ((charFilterList line).foldl (cntStep line isDecl) ⟨0, -1, 0⟩).cnt

/-- Persistent aligner state across the fragments of one logical line. -/
structure AlignSt where
  indentList : List Int
  level : Nat
deriving DecidableEq, Repr

/-- `F90Aligner.__align_line_continuations` on one fragment. -/
def align_line_continuations (line : List Char) (isDecl : Bool) (indentSize : Int)
    (st : AlignSt) : Except PyErr AlignSt :=
  let relInd := st.indentList.getLastD 0
  let st0 : AlignScanSt :=
    { indentList := st.indentList, level := st.level, posEq := 0,
      posLdelim := [], ldelim := [], posRdelim := [], rdelim := [], endOfDelim := -1 }
  match (charFilterList line).foldlM (alignStep line isDecl relInd) st0 with
  | .error e => .error e
  | .ok s =>
    let il :=
      if s.level != 0 && delOpenLinebreak_search line then
        if s.indentList.length > 1 then
          setLast s.indentList ((negGetI s.indentList 2).getD 0)
        else setLast s.indentList 0
      else s.indentList
    let il := if il.getLastD 0 == 0 then setLast il indentSize else il
    .ok { indentList := il, level := s.level }

/-- `F90Aligner.process_lines_of_fline`, returning the per-fragment indent
list `_line_indents` (first entry 0, then the running `_br_indent_list[-1]`
after each fragment but the last). -/
def aligner_process (f_line : List Char) (lines : List (List Char)) (relInd : Int) :
    Except PyErr (List Int) :=
  let isDecl := VAR_DECL_match f_line || PUBLIC_RE.matchesPre f_line
  let rec go (rem : List (List Char)) (st : AlignSt) (acc : List Int) :
      Except PyErr (List Int) :=
    match rem with
    | [] => .ok acc
    | l :: rest =>
      match align_line_continuations l isDecl relInd st with
      | .error e => .error e
      | .ok st' =>
        if rest.isEmpty then .ok acc
        else go rest st' (acc ++ [st'.indentList.getLastD 0])
  go lines { indentList := [0], level := 0 } [0]

/-!
## F90Indenter

`F90Indenter.process_lines_of_fline` ("advance" in the spec): classify the
logical line, update the scope and indent stacks, and shift the raw
per-fragment offsets. -/

/-- Warnings emitted by the tracker (the source's `logger.info` calls). -/
inductive Warn where
  | invalidNew
  | invalidCon
  | invalidEnd
deriving DecidableEq, Repr

/-- The two parallel stacks (`_scope_storage`, `_indent_storage`). -/
structure IndState where
  scopes : List Nat
  indents : List Int
deriving DecidableEq, Repr

/-- Result of one `advance` call. -/
structure AdvResult where
  state : IndState
  lineIndents : List Int
  warns : List Warn
deriving DecidableEq, Repr

/-- The end-scope loop: one pop per matching closing pattern while the scope
stack is nonempty; `valid_end` records whether any popped kind matched. -/
def endLoop : List Nat → List Nat → Bool → (List Nat × Bool)
  | [], scopes, valid => (scopes, valid)
  | k :: rest, scopes, valid =>
    if scopes.isEmpty then endLoop rest scopes valid
    else endLoop rest scopes.dropLast (valid || scopes.getLastD 0 == k)

/-- The Python list comprehension `[ind + shift for ind in l]`: the shift
expression is only evaluated when the list is nonempty. -/
def shiftBy (l : List Int) (shift : Option Int) : Except PyErr (List Int) :=
  if l.isEmpty then .ok []
  else
    match shift with
    | some x => .ok (l.map (· + x))
    | none => .error .indexError

/-- `line_indents[pos + 1] = br_indent_list[pos + 1]` for all fragments
after the first (`line_indents[0]` stays 0). -/
def buildLineIndents (n : Nat) (br : List Int) : Except PyErr (List Int) :=
  (List.range n).mapM (fun i =>
    if i == 0 then .ok (0 : Int)
    else match br.get? i with
         | some v => .ok v
         | none => .error .indexError)

/-- The stack-update part of `F90Indenter.process_lines_of_fline`, once the
classifier results (`nl`, `cl`, `el`) and the raw per-fragment offsets
(`li0`) are in hand. -/
def advanceCore (nl cl el : List Nat) (relInd : Int) (st : IndState)
    (li0 : List Int) : Except PyErr AdvResult :=
  let isNew := !nl.isEmpty
  let validNew := isNew
  let scopes1 := st.scopes ++ nl
  let isCon := !cl.isEmpty
  let validCon :=
    match scopes1.getLast? with
    | some top => cl.contains top
    | none => false
  let isEnd := !el.isEmpty
  let scopes2 := (endLoop el scopes1 false).1
  let validEnd := (endLoop el scopes1 false).2
  if isNew then
    match shiftBy li0 (negGetI st.indents 1) with
    | .error e => .error e
    | .ok li =>
      match negGetI st.indents 1 with
      | none => .error .indexError
      | some oldInd =>
        .ok ⟨⟨scopes2, st.indents ++ [relInd + oldInd]⟩, li,
             if !validNew then [.invalidNew] else []⟩
  else if isCon then
    if !validCon then
      .ok ⟨⟨scopes2, st.indents⟩, li0, [.invalidCon]⟩
    else
      match shiftBy li0 (negGetI st.indents 2) with
      | .error e => .error e
      | .ok li => .ok ⟨⟨scopes2, st.indents⟩, li, []⟩
  else if isEnd then
    if !validEnd then
      .ok ⟨⟨scopes2, st.indents⟩, li0, [.invalidEnd]⟩
    else
      match shiftBy li0 (negGetI st.indents 2) with
      | .error e => .error e
      | .ok li =>
        match st.indents.getLast? with
        | none => .error .indexError
        | some _ => .ok ⟨⟨scopes2, st.indents.dropLast⟩, li, []⟩
  else
    match shiftBy li0 (negGetI st.indents 1) with
    | .error e => .error e
    | .ok li => .ok ⟨⟨scopes2, st.indents⟩, li, []⟩

/-- `F90Indenter.process_lines_of_fline` ("advance" in the spec): compute
the raw per-fragment offsets (by the aligner, unless `manual` overrides
are given — the empty list meaning "auto-align"), classify the logical
line, and update the stacks via `advanceCore`. -/
def advance (f_line : List Char) (lines : List (List Char))
    (relInd relIndCon : Int) (manual : List Int) (st : IndState) :
    Except PyErr AdvResult :=
  let brE : Except PyErr (List Int) :=
    if manual.isEmpty then aligner_process f_line lines relIndCon else .ok manual
  match brE with
  | .error e => .error e
  | .ok br =>
    match buildLineIndents lines.length br with
    | .error e => .error e
    | .ok li0 =>
      advanceCore (newMatches f_line) (conMatches f_line) (endMatches f_line)
        relInd st li0

/-!
## format_single_fline (the Token Formatter)

A faithful transliteration of `format_single_fline`: the whitespace
collapse pass, the delimiter/comma/`.NOT.`/assignment scan, the
string-aware two-sided-operator substitution, label-colon formatting, and
the mapping of the original line-break offsets into the transformed text.
-/

/-- Python `str.lstrip()` (all whitespace). -/
def lstripWs (s : List Char) : List Char := s.dropWhile isSpaceChar

/-- Python `str.rstrip()` (all whitespace). -/
def rstripWs (s : List Char) : List Char := (s.reverse.dropWhile isSpaceChar).reverse

/-- The char class `[\w"]`. -/
def isWordQuote (c : Char) : Bool := isWordChar c || c == '"'

/-- One step of the double-space-removal pass (state: `line_ftd`, `pos_prev`). -/
def dedupStep (line : List Char) (st : List Char × Int) (pc : Nat × Char) :
    List Char × Int :=
  let ftd := st.1
  let posPrev := st.2
  let pos := pc.1
  let char := pc.2
  let isDecl := startsWithL (lstripWs (pyDrop line pos)) "::".data ||
                endsWithL (rstripWs (pyTake line pos)) "::".data
  if char == ' ' then
    if !ftd.isEmpty && (isWordQuote (ftd.getLastD ' ') || isDecl) then
      (ftd ++ [char], (pos : Int))
    else (ftd, (pos : Int))
  else
    let ftd :=
      if !ftd.isEmpty && ftd.getLastD ' ' == ' ' && (!isWordQuote char && !isDecl) then
        ftd.dropLast
      else ftd
    (ftd ++ pySlice line (posPrev + 1) ((pos : Int) + 1), (pos : Int))

/-- The "rm extraneous whitespace chars" pass. -/
def dedupPass (line : List Char) : List Char :=
  ((charFilterList line).foldl (dedupStep line) ([], -1)).1

/-- `(DEL_OPEN_STR|[\w\*/=\+\-:])\s*$`, searched in `line[:pos]`
(the opening-delimiter separating-space suppression list). -/
def sep1Suppress_search (s : List Char) : Bool :=
  (rcat [.alt (.alt (rcat [rch '(', ropt (rch '/')]) (rch '['))
          (.cls (fun c => isWordChar c || c == '*' || c == '/' || c == '=' ||
                          c == '+' || c == '-' || c == ':')),
         sstar]).searchEnd s

/-- `^\s*(\w+\s*:)?(ELSE)?\s*IF\s*$` -/
def sep1If_search (s : List Char) : Bool :=
  (rcat [sstar, ropt (rcat [rplus wch, sstar, rch ':']), ropt (rstr "ELSE"),
         sstar, rstr "IF", sstar]).acceptsEnd s

/-- `^\s*(\w+\s*:)?\s*DO\s+WHILE\s*$` -/
def sep1DoWhile_search (s : List Char) : Bool :=
  (rcat [sstar, ropt (rcat [rplus wch, sstar, rch ':']), sstar, rstr "DO",
         splus, rstr "WHILE", sstar]).acceptsEnd s

/-- `^\s*(SELECT)?\s*CASE\s*` (no `$`). -/
def sep1Case_search (s : List Char) : Bool :=
  (rcat [sstar, ropt (rstr "SELECT"), sstar, rstr "CASE", sstar]).matchesPre s

/-- `INTR_STMTS_PAR\s*$`: the intrinsic statements usable with parentheses. -/
def INTR_re : Re :=
  Re.seq (["ALLOCATE", "DEALLOCATE", "REWIND", "BACKSPACE", "INQUIRE",
           "OPEN", "CLOSE", "READ", "WRITE",
           "FORALL", "WHERE", "NULLIFY"].foldr (fun kw r => .alt (rstr kw) r) .emp)
    sstar

/-- `re.search(r"\b" + INTR_STMTS_PAR + r"\s*$", s)`: try the pattern at every
position whose predecessor is not a word character. -/
def searchWBEnd (r : Re) (s : List Char) : Bool :=
  let rec go (pv : Option Char) (rem : List Char) : Bool :=
    ((match pv with
      | none => true
      | some c => !isWordChar c) && r.acceptsEnd rem) ||
    (match rem with
     | [] => false
     | c :: rest => go (some c) rest)
  go none s

/-- `^\s*(DEL_CLOSE_STR|[,%:\/\*])`, matched in `line[pos+1:]`
(the closing-delimiter separating-space suppression list). -/
def sep2Suppress_search (s : List Char) : Bool :=
  (rcat [sstar, .alt (.alt (rcat [ropt (rch '/'), rch ')']) (rch ']'))
          (.cls (fun c => c == ',' || c == '%' || c == ':' || c == '/' || c == '*'))]).matchesPre s

/-- `^\s*::` -/
def sep2DblColon_search (s : List Char) : Bool :=
  (rcat [sstar, rstr "::"]).matchesPre s

/-- Scan state of the delimiter/comma/`.NOT.`/`=` formatting pass. -/
structure FmtScanSt where
  lineFtd : List Char
  posEq : List Nat
  endOfDelim : Int
  level : Nat
deriving DecidableEq, Repr

/-- One character step of the main formatting scan. -/
def fmtScanStep (line : List Char) (spacey : List Nat) (st : FmtScanSt)
    (pc : Nat × Char) : FmtScanSt :=
  let pos := pc.1
  let char := pc.2
  let offset : Int := (st.lineFtd.length : Int) - line.length
  let w := pySlice line pos (pos + 2)
  let whatDelOpen := if (pos : Int) > st.endOfDelim then delOpenMatch w else none
  let whatDelClose := if (pos : Int) > st.endOfDelim then delCloseMatch w else none
  -- format delimiters
  let st :=
    match whatDelOpen, whatDelClose with
    | none, none => st
    | o, c =>
      let delim := match o with
        | some tok => tok
        | none => c.getD []
      let lhs := pyTake st.lineFtd ((pos : Int) + offset)
      let rhs := pyDrop st.lineFtd ((pos : Int) + delim.length + offset)
      let (level, sep1, sep2) :=
        match o with
        | some _ =>
          let sep1 : Nat :=
            if (!sep1Suppress_search (pyTake line pos) &&
                  !EMPTY_RE.acceptsEnd (pyTake line pos)) ||
               sep1If_search (pyTake line pos) ||
               sep1DoWhile_search (pyTake line pos) ||
               sep1Case_search (pyTake line pos) ||
               searchWBEnd INTR_re (pyTake line pos) then 1 else 0
          (st.level + 1, sep1, 0)
        | none =>
          let level := if st.level > 0 then st.level - 1 else st.level
          let sep2 : Nat :=
            if !sep2Suppress_search (pyDrop line ((pos : Int) + 1)) then 1
            else if sep2DblColon_search (pyDrop line ((pos : Int) + 1)) then
              rhs.length - (lstripSp rhs).length
            else 0
          (level, 0, sep2)
      { st with
          level := level
          endOfDelim := (pos : Int) + delim.length - 1
          lineFtd := rstripSp lhs ++ List.replicate sep1 ' ' ++ delim ++
                     List.replicate sep2 ' ' ++ lstripSp rhs }
  -- format commas and semicolons
  let st :=
    if char == ',' || char == ';' then
      let lhs := pyTake st.lineFtd ((pos : Int) + offset)
      let rhs := pyDrop st.lineFtd ((pos : Int) + 1 + offset)
      { st with lineFtd := rstripSp (rstripSp lhs ++ [char] ++
          List.replicate (spacey.getD 0 0) ' ' ++ lstripSp rhs) }
    else st
  -- format .NOT.
  let st :=
    if (pySlice line pos ((pos : Int) + 5)).map Char.toLower == ".not.".data then
      let lhs := pyTake st.lineFtd ((pos : Int) + offset)
      let rhs := pyDrop st.lineFtd ((pos : Int) + 5 + offset)
      { st with lineFtd := rstripSp lhs ++ pySlice line pos ((pos : Int) + 5) ++
          List.replicate (spacey.getD 3 0) ' ' ++ lstripSp rhs }
    else st
  -- strip whitespace around '=' and record assignment positions
  if char == '=' then
    if !relOpSearchL (pySlice line ((pos : Int) - 1) ((pos : Int) + 2)) then
      let lhs := pyTake st.lineFtd ((pos : Int) + offset)
      let rhs := pyDrop st.lineFtd ((pos : Int) + 1 + offset)
      { st with
          lineFtd := rstripSp lhs ++ ['='] ++ lstripSp rhs
          posEq := if st.level == 0 then st.posEq ++ [(rstripSp lhs).length] else st.posEq }
    else st
  else st

/-- The "format assignments" loop (can raise `IndexError` via `line[pos+1]`). -/
def fmtAssign (spacey : List Nat) (line : List Char) (posEqL : List Nat) :
    Except PyErr (List Char) :=
  posEqL.foldlM (fun ftd pos =>
    let offset : Int := (ftd.length : Int) - line.length
    match pyGet line ((pos : Int) + 1) with
    | none => .error .indexError
    | some c1 =>
      let isPointer : Nat := if c1 == '>' then 1 else 0
      let lhs := pyTake ftd ((pos : Int) + offset)
      let rhs := pyDrop ftd ((pos : Int) + 1 + isPointer + offset)
      let assignOp := if isPointer == 1 then ['=', '>'] else ['=']
      .ok (rstripSp lhs ++ List.replicate (spacey.getD 1 0) ' ' ++ assignOp ++
           List.replicate (spacey.getD 1 0) ' ' ++ lstripSp rhs)) line

/-- The comment/string partition pass: split `line` into alternating
code and string-literal parts (transliterated from the source loop). -/
def partitionParts (line : List Char) : List (List Char) :=
  let n := line.length
  let rec go (pos : Nat) (rem : List Char) (parts : List (List Char))
      (strEnd : Int) (strStart : Nat) (instring : Option Char) : List (List Char) :=
    match rem with
    | [] => parts
    | c :: rest =>
      let (parts, strEnd, strStart, instring) :=
        if c == '"' || c == squote then
          match instring with
          | none => (parts ++ [pySlice line (strEnd + 1) (pos : Int)], strEnd, pos, some c)
          | some q =>
            if q == c then
              (parts ++ [pySlice line (strStart : Int) ((pos : Int) + 1)], (pos : Int), strStart, none)
            else (parts, strEnd, strStart, instring)
        else (parts, strEnd, strStart, instring)
      let parts :=
        if pos == n - 1 then parts ++ [pyDrop line (strEnd + 1)] else parts
      go (pos + 1) rest parts strEnd strStart instring
  go 0 line [] (-1) 0 none

/-- Ordered alternation of `REL_OP_RE` returning the matched length at `i`. -/
def relOpLenAt (w : List Char) (i : Nat) : Option Nat :=
  let g : Nat → Option Char := fun j => (w.get? j).map Char.toLower
  if g i == some '.' && g (i + 3) == some '.' &&
      ((g (i+1) == some 'e' && g (i+2) == some 'q') ||
       (g (i+1) == some 'n' && g (i+2) == some 'e') ||
       (g (i+1) == some 'l' && g (i+2) == some 't') ||
       (g (i+1) == some 'l' && g (i+2) == some 'e') ||
       (g (i+1) == some 'g' && g (i+2) == some 't') ||
       (g (i+1) == some 'g' && g (i+2) == some 'e')) then some 4
  else if g i == some '=' && g (i+1) == some '=' then some 2
  else if g i == some '/' && g (i+1) == some '=' then some 2
  else if g i == some '<' && !(g (i+1) == some '=') then some 1
  else if g i == some '<' && g (i+1) == some '=' then some 2
  else if g i == some '>' && !(decide (0 < i) && g (i-1) == some '=') &&
          !(g (i+1) == some '=') then some 1
  else if g i == some '>' && g (i+1) == some '=' then some 2
  else none

/-- Ordered alternation of `LOG_OP_RE = \s*(\.(AND|OR|EQV|NEQV)\.)\s*`. -/
def logOpLenAt (w : List Char) (i : Nat) : Option Nat :=
  let g : Nat → Option Char := fun j => (w.get? j).map Char.toLower
  if g i == some '.' then
    if g (i+1) == some 'a' && g (i+2) == some 'n' && g (i+3) == some 'd' &&
       g (i+4) == some '.' then some 5
    else if g (i+1) == some 'o' && g (i+2) == some 'r' && g (i+3) == some '.' then some 4
    else if g (i+1) == some 'e' && g (i+2) == some 'q' && g (i+3) == some 'v' &&
       g (i+4) == some '.' then some 5
    else if g (i+1) == some 'n' && g (i+2) == some 'e' && g (i+3) == some 'q' &&
       g (i+4) == some 'v' && g (i+5) == some '.' then some 6
    else none
  else none

/-- Leftmost match of `\s*(op)\s*`: `(match start, op start, op length, match end)`. -/
def findSurrounded (opLenAt : List Char → Nat → Option Nat) (s : List Char) :
    Option (Nat × Nat × Nat × Nat) :=
  match ((List.range s.length).filterMap
      (fun p => (opLenAt s p).map (fun l => (p, l)))).head? with
  | none => none
  | some (p, l) =>
    let back := (((s.take p).reverse).takeWhile isSpaceChar).length
    let fwd := ((s.drop (p + l)).takeWhile isSpaceChar).length
    some (p - back, p, l, p + l + fwd)

/-- Leftmost match of
`PLUSMINUS_RE = (?<=[\w\)\]])(?<![\d\.]\w)\s*(\+|-)\s*`. -/
def findPlusMinus (s : List Char) : Option (Nat × Nat × Nat × Nat) :=
  let ok : Nat → Option (Nat × Nat × Nat × Nat) := fun i =>
    if 0 < i &&
       (match s.get? (i - 1) with
        | some c => isWordChar c || c == ')' || c == ']'
        | none => false) &&
       !(1 < i &&
         (match s.get? (i - 2), s.get? (i - 1) with
          | some c2, some c1 => (c2.isDigit || c2 == '.') && isWordChar c1
          | _, _ => false)) then
      let run := ((s.drop i).takeWhile isSpaceChar).length
      match s.get? (i + run) with
      | some c =>
        if c == '+' || c == '-' then
          let fwd := ((s.drop (i + run + 1)).takeWhile isSpaceChar).length
          some (i, i + run, 1, i + run + 1 + fwd)
        else none
      | none => none
    else none
  ((List.range (s.length + 1)).filterMap ok).head?

/-- `re.split` with one capture group: alternating texts and operators. -/
def splitWithOp (find : List Char → Option (Nat × Nat × Nat × Nat)) :
    Nat → List Char → List (List Char)
  | 0, s => [s]
  | fuel + 1, s =>
    match find s with
    | none => [s]
    | some (start, opStart, opLen, stop) =>
      s.take start :: (s.drop opStart).take opLen ::
        splitWithOp find fuel (s.drop stop)

/-- `sep.join(parts)`. -/
def joinL (sep : List Char) : List (List Char) → List Char
  | [] => []
  | [p] => p
  | p :: ps => p ++ sep ++ joinL sep ps

/-- The two-sided-operator pass over the string-partitioned parts
(`LR_OPS_RE = [REL_OP_RE, LOG_OP_RE, PLUSMINUS_RE]`). -/
def lrOpsPass (spacey : List Nat) (parts : List (List Char)) : List Char :=
  let apply := fun (find : List Char → Option (Nat × Nat × Nat × Nat))
      (nOp : Nat) (ps : List (List Char)) =>
    ps.map (fun part =>
      match part with
      | c :: _ =>
        if c == squote || c == '"' || c == '!' then part
        else joinL (List.replicate (spacey.getD (nOp + 2) 0) ' ')
              (splitWithOp find (part.length + 1) part)
      | [] => joinL (List.replicate (spacey.getD (nOp + 2) 0) ' ')
              (splitWithOp find 1 []))
  let parts := apply (findSurrounded relOpLenAt) 0 parts
  let parts := apply (findSurrounded logOpLenAt) 1 parts
  let parts := apply findPlusMinus 2 parts
  parts.foldl (· ++ ·) []

/-- `re.search(SOL_STR + r"\w+\s*:", line)`. -/
def labelHead_search (s : List Char) : Bool :=
  (rcat [sstar, rplus wch, sstar, rch ':']).matchesPre s

/-- `': '.join(_.strip() for _ in line.split(':', 1))`. -/
def labelColonApply (line : List Char) : List Char :=
  match line.findIdx? (· == ':') with
  | none => stripWs line
  | some i => stripWs (line.take i) ++ [':', ' '] ++ stripWs (line.drop (i + 1))

/-- The label-colon pass (`NEW_SCOPE_RE[0:2]`, i.e. `IF_RE` then `DO_RE`). -/
def labelColonPass (line : List Char) : List Char :=
  let line := if IF_RE.acceptsEnd line && labelHead_search line then
                labelColonApply line else line
  if DO_RE_search line && labelHead_search line then labelColonApply line else line

/-- Descending insertion sort (Python's `sort(reverse=True)`). -/
def insertDesc (x : Int) : List Int → List Int
  | [] => [x]
  | y :: ys => if x ≥ y then x :: y :: ys else y :: insertDesc x ys

def sortDesc (l : List Int) : List Int := l.foldr insertDesc []

/-- Skip over spaces from position `p` on (the inner `while` loops). -/
def skipSpacesFrom (s : List Char) (p : Nat) : Nat :=
  p + ((s.drop p).takeWhile (· == ' ')).length

/-- The co-walk of original and transformed line mapping break offsets. -/
def coWalk (line lineOrig : List Char) :
    Nat → Nat → Nat → List Int → List Nat → Except PyErr (List Nat)
  | 0, _, _, _, _ => .error .internalException
  | fuel + 1, posNew, posOld, breaks, acc =>
    if posNew == line.length || posOld == lineOrig.length then .ok acc
    else
      match line.get? posNew, lineOrig.get? posOld with
      | some cn, some co =>
        if cn != co then .error .internalException
        else if !breaks.isEmpty && (posOld : Int) > breaks.getLastD 0 then
          coWalk line lineOrig fuel posNew posOld breaks.dropLast (acc ++ [posNew])
        else if cn == co then
          coWalk line lineOrig fuel (skipSpacesFrom line (posNew + 1))
            (skipSpacesFrom lineOrig (posOld + 1)) breaks acc
        else if cn == ' ' then
          coWalk line lineOrig fuel (posNew + 1) posOld breaks acc
        else if co == ' ' then
          coWalk line lineOrig fuel posNew (posOld + 1) breaks acc
        else .error .internalException
      | _, _ => .error .internalException

/-- Assemble the output fragments from the mapped break positions. -/
def assembleLines (line : List Char) (ftd : List Nat) (ampersandSep : List Nat) :
    Except PyErr (List (List Char)) :=
  let pairs := ftd.dropLast.zip (ftd.drop 1)
  match (List.range pairs.length).mapM (fun pos =>
      (match pairs.get? pos, ampersandSep.get? pos with
      | some (l, r), some sep =>
        .ok (rstripSp ((line.drop l).take (r - l)) ++ List.replicate sep ' ' ++
             List.replicate (min 1 (r - l)) '&')
      | some _, none => .error .indexError
      | none, _ => .error .indexError : Except PyErr (List Char))) with
  | .error e => .error e
  | .ok outs => .ok (outs ++ [line.drop (ftd.getLastD 0)])

/-- `format_single_fline`: whitespace formatting of one logical Fortran
line plus re-insertion of its line breaks. -/
def format_single_fline (f_line : List Char) (whitespace : Nat)
    (linebreakPos : List Int) (ampersandSep : List Nat) (autoFormat : Bool) :
    Except PyErr (List (List Char)) :=
  match (match whitespace with
         | 0 => some ([0, 0, 0, 0, 0] : List Nat)
         | 1 => some [1, 1, 1, 1, 0]
         | 2 => some [1, 1, 1, 1, 1]
         | _ => none) with
  | none => .error .notImplementedError
  | some spacey =>
    let lineOrig := f_line
    let line1 := dedupPass f_line
    let scan := (charFilterList line1).foldl (fmtScanStep line1 spacey)
      { lineFtd := line1, posEq := [], endOfDelim := -1, level := 0 }
    match fmtAssign spacey scan.lineFtd scan.posEq with
    | .error e => .error e
    | .ok line3 =>
      let line4 := lrOpsPass spacey (partitionParts line3)
      let line5 := labelColonPass line4
      let line := if autoFormat then line5 else lineOrig
      let breaks := sortDesc linebreakPos
      match coWalk line lineOrig (line.length + lineOrig.length + breaks.length + 2)
          0 0 breaks [] with
      | .error e => .error e
      | .ok ftdAcc => assembleLines line (0 :: ftdAcc) ampersandSep

/-!
## Reformat pipeline pieces

The per-physical-line output guard (the write block of `reformat_ffile`)
and the manual-block directive handling. -/

/-- The pipeline's "actual line length excluding comment": the last
position delivered by `CharFilter`, plus one (1 for an empty filter). -/
def lineLengthOf (line : List Char) : Nat :=
  (((charFilterList line).getLast?).map (fun pc => pc.1)).getD 0 + 1

/-- The output guard of `reformat_ffile`: the written text for one
physical line and whether the 132-character warning was logged. -/
def emitLine (doIndent useSameLine isOmp : Bool) (ind firstIndent : Int)
    (line origLine : List Char) : List Char × Bool :=
  let lineLength : Int := lineLengthOf line
  let indUse : Int := if doIndent then ind + firstIndent else if useSameLine then 1 else 0
  let ompN : Int := if isOmp then 1 else 0
  let ompPre : List Char := if isOmp then ['!', '$'] else []
  if indUse + lineLength ≤ 133 then
    (ompPre ++ spaces (indUse - 2 * ompN + ((line.length : Int) - (lstripSp line).length)) ++
       lstripSp line, false)
  else if lineLength ≤ 133 then
    (ompPre ++ spaces (133 - 2 * ompN - ((lstripSp line).length : Int)) ++ lstripSp line, true)
  else (origLine, true)

/-- The manual-block directive handling of `reformat_ffile`: single-fragment
`!&<` / `!&>` lines toggle `in_manual_block`; a duplicate open or an
unmatched close raises `fprettifyParseException`. -/
def manualBlockStep (lines : List (List Char)) (inBlock : Bool) : Except PyErr Bool :=
  if lines.length == 1 then
    let s := stripWs (lines.getD 0 [])
    let vb1 :=
      if startsWithL s "!&<".data then
        (if inBlock then (false, inBlock) else (true, true))
      else (true, inBlock)
    let vb2 :=
      if startsWithL s "!&>".data then
        (if !vb1.2 then (false, vb1.2) else (true, false))
      else (true, vb1.2)
    if vb1.1 && vb2.1 then .ok vb2.2 else .error .parseException
  else .ok inBlock

/-- Iterated guarded `dropLast`: what the end-scope loop does to the
scope stack, one pop per closing match while nonempty. -/
def popN : List Nat → Nat → List Nat
  | s, 0 => s
  | s, n + 1 => if s.isEmpty then s else popN s.dropLast n

/-- The character set whose absence makes a fragment structurally inert for
the aligner scan: no delimiter tokens, no assignment, no declaration colon. -/
def alignInertChar (c : Char) : Bool :=
  !(c == '(' || c == '[' || c == ')' || c == ']' || c == '/' || c == '=' || c == ':')

/-- A character that is inert for the aligner scan and also passes the
character filter unconsumed (no comment starter, no string quote). -/
def plainChar (c : Char) : Bool :=
  alignInertChar c && !(c == '!' || c == '"' || c == squote)

end Fprettify

/-- Sanity: `end if` closes kind 0 only, opens and continues nothing. -/
example : Fprettify.endMatches "end if".data = [0] := by decide

example : Fprettify.newMatches "end if".data = [] := by decide

/-- C6: the Token Formatter applied to the single-fragment logical line
`if(a.gt.b)then` at density level 2 returns exactly `if (a .gt. b) then`:
one space before the header's opening parenthesis, one space after the
closing parenthesis, spaces around `.gt.`, and no change of letter case. -/
theorem C6_whitespace_normalization_example :
    Fprettify.format_single_fline "if(a.gt.b)then".data 2 [] [] true =
      .ok ["if (a .gt. b) then".data] := by rfl

/-- C8: a manual-region opening directive while already inside a manual
block, or a closing directive while not inside one, raises the fatal parse
error; matched directive pairs toggle the manual-block state without
error. -/
theorem C8_manual_region_directives (l : List Char) :
    (Fprettify.startsWithL (Fprettify.stripWs l) "!&<".data = true →
      Fprettify.manualBlockStep [l] true = .error .parseException ∧
      Fprettify.manualBlockStep [l] false = .ok true) ∧
    (Fprettify.startsWithL (Fprettify.stripWs l) "!&>".data = true →
      Fprettify.manualBlockStep [l] false = .error .parseException ∧
      Fprettify.manualBlockStep [l] true = .ok false) := by
  constructor
  · intro h
    have hne : Fprettify.startsWithL (Fprettify.stripWs l) "!&>".data = false := by
      unfold Fprettify.startsWithL at h ⊢
      have h3 : (Fprettify.stripWs l).take 3 = "!&<".data := by
        exact eq_of_beq h
      rw [show ("!&>".data.length = 3) from rfl, show ("!&<".data.length = 3) from rfl] at *
      rw [h3]
      decide
    constructor <;>
      simp [Fprettify.manualBlockStep, h, hne]
  · intro h
    have hne : Fprettify.startsWithL (Fprettify.stripWs l) "!&<".data = false := by
      unfold Fprettify.startsWithL at h ⊢
      have h3 : (Fprettify.stripWs l).take 3 = "!&>".data := by
        exact eq_of_beq h
      rw [show ("!&>".data.length = 3) from rfl, show ("!&<".data.length = 3) from rfl] at *
      rw [h3]
      decide
    constructor <;>
      simp [Fprettify.manualBlockStep, h, hne]

/-- Witness for C8 at the concrete directives `!&<` and `!&>`. -/
theorem C8_manual_region_directives_witness :
    Fprettify.manualBlockStep ["!&<".data] true = .error .parseException ∧
    Fprettify.manualBlockStep ["!&>".data] false = .error .parseException ∧
    Fprettify.manualBlockStep ["!&<".data] false = .ok true ∧
    Fprettify.manualBlockStep ["!&>".data] true = .ok false :=
  ⟨(C8_manual_region_directives "!&<".data).1 (by decide) |>.1,
   (C8_manual_region_directives "!&>".data).2 (by decide) |>.1,
   (C8_manual_region_directives "!&<".data).1 (by decide) |>.2,
   (C8_manual_region_directives "!&>".data).2 (by decide) |>.2⟩

/-- C2 counterexample: the Token Formatter (`format_single_fline`) does
*not* raise the internal-defect error on a logical line with two top-level
assignment operators; it formats `a = b = c` successfully. -/
theorem C2_formatter_counterexample :
    ¬ (∀ l : List Char, 2 ≤ Fprettify.countTopLevelAssign l false →
        Fprettify.format_single_fline l 2 [] [] true = .error .internalException) := by
  intro h
  have h1 := h "a = b = c".data (by decide)
  have h2 : Fprettify.format_single_fline "a = b = c".data 2 [] [] true =
      .ok ["a = b = c".data] := by rfl
  rw [h2] at h1
  exact Except.noConfusion h1

/-- C9 counterexample: a zero-fragment call to the tracker completes
without error (refuting "calling it with zero fragments is fatal"), while
a reachable three-line sequence (`module interface`, `end interface`,
`contains`) makes the third call abort with an uncaught `IndexError`
(refuting "never fatal for any non-empty fragment list"). -/
theorem C9_advance_counterexample :
    Fprettify.advance "".data [] 3 3 [] ⟨[], [0]⟩ = .ok ⟨⟨[], [0]⟩, [], []⟩ ∧
    Fprettify.advance "module interface".data ["module interface\n".data] 3 3 []
      ⟨[], [0]⟩ = .ok ⟨⟨[5, 7], [0, 3]⟩, [0], []⟩ ∧
    Fprettify.advance "end interface".data ["end interface\n".data] 3 3 []
      ⟨[5, 7], [0, 3]⟩ = .ok ⟨⟨[5], [0]⟩, [0], []⟩ ∧
    Fprettify.advance "contains".data ["contains\n".data] 3 3 []
      ⟨[5], [0]⟩ = .error .indexError :=
  ⟨by rfl, by rfl, by rfl, by rfl⟩

/-- A negative index within range yields a value. -/
theorem negGetI_some (l : List Int) (k : Nat) (h1 : 0 < k) (h2 : k ≤ l.length) :
    ∃ x, Fprettify.negGetI l k = some x := by
  unfold Fprettify.negGetI
  have hc : (0 < k && decide (k ≤ l.length)) = true := by simp [h1, h2]
  rw [if_pos hc]
  have hlt : l.length - k < l.length := by omega
  exact ⟨l.get ⟨l.length - k, hlt⟩, List.get?_eq_get hlt⟩

/-- Shifting by a present value never fails. -/
theorem shiftBy_some (l : List Int) (x : Int) :
    Fprettify.shiftBy l (some x) = .ok (l.map (· + x)) := by
  unfold Fprettify.shiftBy
  by_cases h : l.isEmpty = true
  · rw [if_pos h]
    rw [List.isEmpty_iff.mp h]
    rfl
  · rw [if_neg h]

/-- `mapM` into `Except` succeeds when every element does. -/
theorem mapM_ok_of_all {α : Type} (f : α → Except Fprettify.PyErr Int) :
    ∀ l : List α, (∀ x ∈ l, ∃ a, f x = .ok a) → ∃ res, l.mapM f = .ok res := by
  intro l
  induction l with
  | nil => exact fun _ => ⟨[], rfl⟩
  | cons x xs ih =>
    intro h
    obtain ⟨a, ha⟩ := h x (List.mem_cons_self _ _)
    obtain ⟨res, hres⟩ := ih (fun y hy => h y (List.mem_cons_of_mem _ hy))
    refine ⟨a :: res, ?_⟩
    simp only [List.mapM_cons, ha, hres]
    rfl

/-- The raw-offset list is constructible whenever the break-indent list is
long enough. -/
theorem buildLineIndents_ok (n : Nat) (br : List Int) (h : n ≤ br.length) :
    ∃ l, Fprettify.buildLineIndents n br = .ok l := by
  unfold Fprettify.buildLineIndents
  apply mapM_ok_of_all
  intro x hx
  have hxn : x < n := List.mem_range.mp hx
  by_cases h0 : (x == 0) = true
  · exact ⟨0, by simp [h0]⟩
  · have hlt : x < br.length := lt_of_lt_of_le hxn h
    refine ⟨br[x], ?_⟩
    simp [h0, List.getElem?_eq_getElem hlt]

/-- `advance` reduces to `advanceCore` once the aligner offsets and the raw
line-indent list are known. -/
theorem advance_eq_core (f_line : List Char) (lines : List (List Char))
    (r rc : Int) (manual : List Int) (st : Fprettify.IndState)
    (br li0 : List Int)
    (hbr : (if manual.isEmpty then Fprettify.aligner_process f_line lines rc
            else Except.ok manual) = .ok br)
    (hli : Fprettify.buildLineIndents lines.length br = .ok li0) :
    Fprettify.advance f_line lines r rc manual st =
      Fprettify.advanceCore (Fprettify.newMatches f_line) (Fprettify.conMatches f_line)
        (Fprettify.endMatches f_line) r st li0 := by
  unfold Fprettify.advance
  dsimp only
  rw [hbr]
  dsimp only
  rw [hli]

/-- With at least two indent frames, the tracker's stack-update part never
raises, whatever the classification outcome. -/
theorem advanceCore_ne_error (nl cl el : List Nat) (r : Int)
    (st : Fprettify.IndState) (li0 : List Int) (hd : 2 ≤ st.indents.length)
    (e : Fprettify.PyErr) :
    Fprettify.advanceCore nl cl el r st li0 ≠ .error e := by
  obtain ⟨x1, hx1⟩ := negGetI_some st.indents 1 (by omega) (by omega)
  obtain ⟨x2, hx2⟩ := negGetI_some st.indents 2 (by omega) hd
  have hne : st.indents ≠ [] := by
    intro h
    rw [h] at hd
    simp at hd
  have hlast : st.indents.getLast? = some (st.indents.getLast hne) :=
    List.getLast?_eq_getLast _ hne
  intro hcontra
  unfold Fprettify.advanceCore at hcontra
  dsimp only at hcontra
  simp only [hx1, hx2, hlast, shiftBy_some] at hcontra
  split at hcontra
  · exact Except.noConfusion hcontra
  · split at hcontra
    · split at hcontra <;> exact Except.noConfusion hcontra
    · split at hcontra
      · split at hcontra <;> exact Except.noConfusion hcontra
      · exact Except.noConfusion hcontra

/-- C9 amended: all classification anomalies only warn; the operation is
non-fatal provided the IndentStack retains at least two frames and the raw
offsets do not come from a failing aligner pass (manual offsets of the
right length supplied, or a zero-fragment call); and a zero-fragment call
in particular is a no-op rather than an error. -/
theorem C9_advance_fatality_amended (f_line : List Char) (lines : List (List Char))
    (r rc : Int) (manual : List Int) (st : Fprettify.IndState)
    (hd : 2 ≤ st.indents.length)
    (hm : (manual ≠ [] ∧ manual.length = lines.length) ∨ (lines = [] ∧ manual = []))
    (e : Fprettify.PyErr) :
    Fprettify.advance f_line lines r rc manual st ≠ .error e := by
  obtain ⟨br, hbr, hbrlen⟩ : ∃ br,
      (if manual.isEmpty then Fprettify.aligner_process f_line lines rc
       else Except.ok manual) = .ok br ∧ lines.length ≤ br.length := by
    rcases hm with ⟨hne, hlen⟩ | ⟨hl, hman⟩
    · refine ⟨manual, ?_, le_of_eq hlen.symm⟩
      rw [if_neg (fun hc => hne (List.isEmpty_iff.mp hc))]
    · subst hl
      subst hman
      exact ⟨[0], rfl, by simp⟩
  obtain ⟨li0, hli⟩ := buildLineIndents_ok lines.length br hbrlen
  rw [advance_eq_core f_line lines r rc manual st br li0 hbr hli]
  exact advanceCore_ne_error _ _ _ _ _ _ hd e

/-- Witness for C9 amended: a manual-offset call with two indent frames
cannot raise an `IndexError`. -/
theorem C9_advance_fatality_amended_witness :
    Fprettify.advance "x = 1".data ["x = 1\n".data] 3 3 [5] ⟨[], [0, 3]⟩ ≠
      .error .indexError :=
  C9_advance_fatality_amended "x = 1".data ["x = 1\n".data] 3 3 [5] ⟨[], [0, 3]⟩
    (by norm_num) (Or.inl ⟨by simp, rfl⟩) .indexError

/-- `popN` of the empty stack stays empty. -/
theorem popN_nil (n : Nat) : Fprettify.popN [] n = [] := by
  cases n <;> rfl

/-- The end-scope loop pops once per closing match, stopping at empty. -/
theorem endLoop_fst : ∀ (el s : List Nat) (v : Bool),
    (Fprettify.endLoop el s v).1 = Fprettify.popN s el.length := by
  intro el
  induction el with
  | nil => intro s v; rfl
  | cons k rest ih =>
    intro s v
    rw [Fprettify.endLoop, List.length_cons, Fprettify.popN]
    by_cases hs : s.isEmpty = true
    · rw [if_pos hs, if_pos hs, ih s v]
      rw [List.isEmpty_iff.mp hs]
      exact popN_nil rest.length
    · rw [if_neg hs, if_neg hs]
      exact ih s.dropLast _

/-- The second-from-top entry is the top after one pop. -/
theorem negGetI_two (l : List Int) (h : 2 ≤ l.length) :
    Fprettify.negGetI l 2 = some (l.dropLast.getLastD 0) := by
  unfold Fprettify.negGetI
  rw [if_pos (by simp; omega)]
  rw [List.dropLast_eq_take]
  rw [List.getLastD_eq_getLast?]
  rw [List.getLast?_eq_getElem?]
  simp only [List.length_take]
  rw [show (l.length - 1) ⊓ l.length - 1 = l.length - 2 by omega]
  rw [List.getElem?_take]
  rw [if_pos (by omega)]
  rw [List.get?_eq_getElem?]
  have hlt : l.length - 2 < l.length := by omega
  rw [List.getElem?_eq_getElem hlt]
  rfl

/-- C7 counterexample: for a structurally inert continuation fragment the
offset is *not* `fallback + previous offset`; with previous accumulated
offset 3 and fallback step 3 the fragment `b &` keeps offset 3, not 6. -/
theorem C7_fallback_counterexample :
    ¬ (∀ (line : List Char) (isDecl : Bool) (fallback : Int) (st : Fprettify.AlignSt),
        st.level = 0 → st.indentList ≠ [] →
        (∀ c ∈ line, Fprettify.alignInertChar c = true) →
        ∃ st', Fprettify.align_line_continuations line isDecl fallback st = .ok st' ∧
          st'.indentList.getLastD 0 = st.indentList.getLastD 0 + fallback) := by
  intro h
  obtain ⟨st', heq, hval⟩ := h "b &\n".data false 3 ⟨[3], 0⟩ rfl (by simp) (by decide)
  have hcomp : Fprettify.align_line_continuations "b &\n".data false 3 ⟨[3], 0⟩ =
      .ok ⟨[3], 0⟩ := by rfl
  rw [hcomp] at heq
  injection heq with heq
  rw [← heq] at hval
  simp [Fprettify.AlignSt.indentList] at hval

/-- Every character delivered by the filter is a character of the line. -/
theorem charFilterAux_mem (s : List Char) :
    ∀ (i : Nat) (q : Option Char) (x : Nat × Char),
      x ∈ Fprettify.charFilterAux s i q → x.2 ∈ s := by
  induction s with
  | nil => intro i q x hx; simp [Fprettify.charFilterAux] at hx
  | cons c rest ih =>
    intro i q x hx
    cases q with
    | none =>
      rw [Fprettify.charFilterAux] at hx
      by_cases h1 : (c == '!') = true
      · simp only [h1, if_pos] at hx
        simp at hx
      · by_cases h2 : (c == '"' || c == Fprettify.squote) = true
        · simp only [h1, h2, if_neg, if_pos, Bool.not_eq_true] at hx
          exact List.mem_cons_of_mem _ (ih _ _ _ hx)
        · simp only [h1, h2, if_neg, Bool.not_eq_true] at hx
          rcases List.mem_cons.mp hx with h | h
          · rw [h]; exact List.mem_cons_self _ _
          · exact List.mem_cons_of_mem _ (ih _ _ _ h)
    | some qc =>
      rw [Fprettify.charFilterAux] at hx
      by_cases h1 : (c == qc) = true
      · simp only [h1, if_pos] at hx
        rcases List.mem_cons.mp hx with h | h
        · rw [h]; exact List.mem_cons_self _ _
        · exact List.mem_cons_of_mem _ (ih _ _ _ h)
      · simp only [h1, if_neg, Bool.not_eq_true] at hx
        exact List.mem_cons_of_mem _ (ih _ _ _ hx)

/-- Characters of a Python slice come from the sliced list. -/
theorem mem_of_mem_pySlice {c : Char} {l : List Char} {a b : Int}
    (h : c ∈ Fprettify.pySlice l a b) : c ∈ l := by
  unfold Fprettify.pySlice at h
  exact List.mem_of_mem_take (List.mem_of_mem_drop h)

/-- A window of inert characters matches no opening delimiter token. -/
theorem delOpenMatch_of_inert (w : List Char)
    (h : ∀ c ∈ w, Fprettify.alignInertChar c = true) :
    Fprettify.delOpenMatch w = none := by
  unfold Fprettify.delOpenMatch
  split
  · have := h '(' (by simp)
    simp [Fprettify.alignInertChar] at this
  · have := h '(' (by simp_all)
    simp [Fprettify.alignInertChar] at this
  · have := h '[' (by simp_all)
    simp [Fprettify.alignInertChar] at this
  · rfl

/-- A window of inert characters matches no closing delimiter token. -/
theorem delCloseMatch_of_inert (w : List Char)
    (h : ∀ c ∈ w, Fprettify.alignInertChar c = true) :
    Fprettify.delCloseMatch w = none := by
  unfold Fprettify.delCloseMatch
  split
  · have := h '/' (by simp)
    simp [Fprettify.alignInertChar] at this
  · have := h ')' (by simp_all)
    simp [Fprettify.alignInertChar] at this
  · have := h ']' (by simp_all)
    simp [Fprettify.alignInertChar] at this
  · rfl

/-- An inert character leaves the aligner scan state untouched. -/
theorem alignStep_inert (line : List Char) (isDecl : Bool) (relInd : Int)
    (st : Fprettify.AlignScanSt) (hlvl : st.level = 0) (pc : Nat × Char)
    (hchar : Fprettify.alignInertChar pc.2 = true)
    (hw : ∀ c ∈ Fprettify.pySlice line pc.1 ((pc.1 : Int) + 2),
      Fprettify.alignInertChar c = true) :
    Fprettify.alignStep line isDecl relInd st pc = .ok st := by
  have ho := delOpenMatch_of_inert _ hw
  have hc := delCloseMatch_of_inert _ hw
  have hne : (pc.2 == '=') = false := by
    simp only [Fprettify.alignInertChar, Bool.not_eq_true', Bool.or_eq_false_iff] at hchar
    simpa using hchar.1.2
  have hwcol : (Fprettify.pySlice line pc.1 ((pc.1 : Int) + 2) == [':', ':']) = false := by
    refine beq_eq_false_iff_ne.mpr (fun hcontra => ?_)
    have := hw ':' (by rw [hcontra]; simp)
    simp [Fprettify.alignInertChar] at this
  unfold Fprettify.alignStep
  simp only [ho, hc, ite_self, hlvl, hne, hwcol, Bool.and_false, Bool.false_and,
    Bool.and_self, if_true, if_false, beq_self_eq_true, Bool.not_false]
  rfl

/-- Folding a step that fixes the state yields the state. -/
theorem foldlM_ok_of_fix {β : Type} (f : Fprettify.AlignScanSt → β →
      Except Fprettify.PyErr Fprettify.AlignScanSt) (a : Fprettify.AlignScanSt) :
    ∀ l : List β, (∀ b ∈ l, f a b = .ok a) → l.foldlM f a = .ok a := by
  intro l
  induction l with
  | nil => intro _; rfl
  | cons b rest ih =>
    intro h
    rw [List.foldlM_cons, h b (List.mem_cons_self _ _)]
    exact ih (fun x hx => h x (List.mem_cons_of_mem _ hx))

/-- C7 amended: a fragment made of inert characters (no delimiters, no
assignment, no declaration colon) entered with no open delimiter frame
keeps the previous fragment's accumulated offset when that offset is
nonzero, and receives the fallback step only when it is zero; the offsets
do not accumulate. -/
theorem C7_fallback_amended (line : List Char) (isDecl : Bool) (fallback : Int)
    (st : Fprettify.AlignSt) (hlvl : st.level = 0)
    (hin : ∀ c ∈ line, Fprettify.alignInertChar c = true) :
    Fprettify.align_line_continuations line isDecl fallback st =
      .ok ⟨if st.indentList.getLastD 0 == 0 then Fprettify.setLast st.indentList fallback
           else st.indentList, 0⟩ := by
  have hfold : (Fprettify.charFilterList line).foldlM
      (Fprettify.alignStep line isDecl (st.indentList.getLastD 0))
      ⟨st.indentList, 0, 0, [], [], [], [], -1⟩ =
      .ok ⟨st.indentList, 0, 0, [], [], [], [], -1⟩ := by
    apply foldlM_ok_of_fix
    intro pc hpc
    exact alignStep_inert line isDecl _ _ rfl pc
      (hin _ (charFilterAux_mem line 0 none pc hpc))
      (fun c hcw => hin c (mem_of_mem_pySlice hcw))
  unfold Fprettify.align_line_continuations
  dsimp only
  rw [hlvl, hfold]
  by_cases hz : (st.indentList.getLastD 0 == 0) = true
  · simp [hz]
  · simp [hz]

/-- Witness for C7 amended: the inert fragment `b &` after a fragment with
accumulated offset 3 keeps offset 3 (fallback 3 not added); from offset 0
it receives the fallback step. -/
theorem C7_fallback_amended_witness :
    Fprettify.align_line_continuations "b &\n".data false 3 ⟨[3], 0⟩ = .ok ⟨[3], 0⟩ ∧
    Fprettify.align_line_continuations "b &\n".data false 3 ⟨[0], 0⟩ = .ok ⟨[3], 0⟩ := by
  constructor
  · have h := C7_fallback_amended "b &\n".data false 3 ⟨[3], 0⟩ rfl (by decide)
    simpa using h
  · have h := C7_fallback_amended "b &\n".data false 3 ⟨[0], 0⟩ rfl (by decide)
    simpa using h

/-- On a line with no comment starter and no string quotes the filter
delivers every character, so its last position is `i + length - 1`. -/
theorem charFilterAux_clean_last (s : List Char) :
    ∀ i : Nat, s ≠ [] →
    (∀ c ∈ s, (c == '!') = false ∧ (c == '"') = false ∧ (c == Fprettify.squote) = false) →
    (Fprettify.charFilterAux s i none).getLast?.map Prod.fst = some (i + s.length - 1) := by
  induction s with
  | nil => intro i h _; exact absurd rfl h
  | cons c rest ih =>
    intro i _ hclean
    have hc := hclean c (List.mem_cons_self _ _)
    have hstep : Fprettify.charFilterAux (c :: rest) i none =
        (i, c) :: Fprettify.charFilterAux rest (i + 1) none := by
      rw [Fprettify.charFilterAux]
      simp [hc.1, hc.2.1, hc.2.2]
    rw [hstep]
    rcases eq_or_ne rest [] with hrest | hrest
    · subst hrest
      simp [Fprettify.charFilterAux]
    · have htail := ih (i + 1) hrest
        (fun x hx => hclean x (List.mem_cons_of_mem _ hx))
      have htne : Fprettify.charFilterAux rest (i + 1) none ≠ [] := by
        intro hcontra
        rw [hcontra] at htail
        simp at htail
      obtain ⟨y, ys, hys⟩ := List.exists_cons_of_ne_nil htne
      rw [hys]
      rw [hys] at htail
      rw [List.getLast?_cons_cons]
      rw [htail]
      have hl : 1 ≤ rest.length := by
        cases rest with
        | nil => exact absurd rfl hrest
        | cons _ _ => simp
      congr 1
      simp only [List.length_cons]
      omega

/-- For a comment-free, quote-free fragment the guard's measured length is
the full character count. -/
theorem lineLengthOf_clean (line : List Char) (hne : line ≠ [])
    (hclean : ∀ c ∈ line,
      (c == '!') = false ∧ (c == '"') = false ∧ (c == Fprettify.squote) = false) :
    Fprettify.lineLengthOf line = line.length := by
  unfold Fprettify.lineLengthOf Fprettify.charFilterList
  rw [show ((Fprettify.charFilterAux line 0 none).getLast?.map (fun pc => pc.1)) =
      ((Fprettify.charFilterAux line 0 none).getLast?.map Prod.fst) from rfl]
  rw [charFilterAux_clean_last line 0 hne hclean]
  have hl : 1 ≤ line.length := by
    cases line with
    | nil => exact absurd rfl hne
    | cons _ _ => simp
  simp
  omega

/-- C5 amended: for fragments carrying no trailing comment (and no string
quotes) the three-branch guard behaves as the claim states, with content
length measured excluding the trailing newline: fits with indent → written
at the computed indent; content alone fits → right-justified against
column 132 with a warning; otherwise the untouched original line is
written with a warning, never truncated. -/
theorem C5_length_guard_amended (ind : Int) (line orig : List Char) (h0 : 0 ≤ ind)
    (hne : line ≠ []) (hnl : line.getLast? = some '\n')
    (hclean : ∀ c ∈ line,
      (c == '!') = false ∧ (c == '"') = false ∧ (c == Fprettify.squote) = false) :
    (ind + ((line.length : Int) - 1) ≤ 132 →
       Fprettify.emitLine true false false ind 0 line orig =
         (Fprettify.spaces (ind + ((line.length : Int) - (Fprettify.lstripSp line).length)) ++
            Fprettify.lstripSp line, false)) ∧
    (132 < ind + ((line.length : Int) - 1) → (line.length : Int) - 1 ≤ 132 →
       Fprettify.emitLine true false false ind 0 line orig =
         (Fprettify.spaces (133 - ((Fprettify.lstripSp line).length : Int)) ++
            Fprettify.lstripSp line, true)) ∧
    (132 < (line.length : Int) - 1 →
       Fprettify.emitLine true false false ind 0 line orig = (orig, true)) := by
  have hlen := lineLengthOf_clean line hne hclean
  have hl1 : 1 ≤ line.length := by
    cases line with
    | nil => exact absurd rfl hne
    | cons _ _ => simp
  refine ⟨fun h1 => ?_, fun h2a h2b => ?_, fun h3 => ?_⟩
  · have hc1 : ind + 0 + ((line.length : Int)) ≤ 133 := by omega
    unfold Fprettify.emitLine
    dsimp only
    simp only [hlen, reduceIte]
    rw [if_pos hc1]
    norm_num
  · have hc1 : ¬ (ind + 0 + ((line.length : Int)) ≤ 133) := by omega
    have hc2 : ((line.length : Int)) ≤ 133 := by omega
    unfold Fprettify.emitLine
    dsimp only
    simp only [hlen, reduceIte]
    rw [if_neg hc1]
    rw [if_pos hc2]
    norm_num
  · have hc1 : ¬ (ind + 0 + ((line.length : Int)) ≤ 133) := by omega
    have hc2 : ¬ (((line.length : Int)) ≤ 133) := by omega
    unfold Fprettify.emitLine
    dsimp only
    simp only [hlen, reduceIte]
    rw [if_neg hc1]
    rw [if_neg hc2]

/-- Witness for C5 amended at a short and an over-long fragment. -/
theorem C5_length_guard_amended_witness :
    Fprettify.emitLine true false false 3 0 "x = 1\n".data "x = 1\n".data =
      (Fprettify.spaces 3 ++ "x = 1\n".data, false) := by
  have h := (C5_length_guard_amended 3 "x = 1\n".data "x = 1\n".data
    (by norm_num) (by simp) (by rfl) (by decide)).1 (by norm_num)
  simpa using h

/-- Each filtered pair records a real position/character of the line. -/
theorem charFilterAux_get (s : List Char) :
    ∀ (i : Nat) (q : Option Char) (x : Nat × Char),
      x ∈ Fprettify.charFilterAux s i q →
      ∃ j, j < s.length ∧ x.1 = i + j ∧ s.get? j = some x.2 := by
  induction s with
  | nil => intro i q x hx; simp [Fprettify.charFilterAux] at hx
  | cons c rest ih =>
    intro i q x hx
    cases q with
    | none =>
      rw [Fprettify.charFilterAux] at hx
      by_cases h1 : (c == '!') = true
      · simp only [h1, if_pos] at hx
        simp at hx
      · by_cases h2 : (c == '"' || c == Fprettify.squote) = true
        · simp only [h1, h2, if_neg, if_pos, Bool.not_eq_true] at hx
          obtain ⟨j, hj, hx1, hget⟩ := ih _ _ _ hx
          refine ⟨j + 1, by simp only [List.length_cons]; omega, by omega, ?_⟩
          simpa using hget
        · simp only [h1, h2, if_neg, Bool.not_eq_true] at hx
          rcases List.mem_cons.mp hx with rfl | h
          · exact ⟨0, by simp, by simp, by simp⟩
          · obtain ⟨j, hj, hx1, hget⟩ := ih _ _ _ h
            refine ⟨j + 1, by simp only [List.length_cons]; omega, by omega, ?_⟩
            simpa using hget
    | some qc =>
      rw [Fprettify.charFilterAux] at hx
      by_cases h1 : (c == qc) = true
      · simp only [h1, if_pos] at hx
        rcases List.mem_cons.mp hx with rfl | h
        · exact ⟨0, by simp, by simp, by simp⟩
        · obtain ⟨j, hj, hx1, hget⟩ := ih _ _ _ h
          refine ⟨j + 1, by simp only [List.length_cons]; omega, by omega, ?_⟩
          simpa using hget
      · simp only [h1, if_neg, Bool.not_eq_true] at hx
        obtain ⟨j, hj, hx1, hget⟩ := ih _ _ _ hx
        refine ⟨j + 1, by simp only [List.length_cons]; omega, by omega, ?_⟩
        simpa using hget

/-- The filter distributes over an append whose left part is free of
comment starters and quotes. -/
theorem charFilterAux_append_clean (a : List Char) :
    ∀ (b : List Char) (i : Nat),
      (∀ c ∈ a, (c == '!') = false ∧ (c == '"') = false ∧
        (c == Fprettify.squote) = false) →
      Fprettify.charFilterAux (a ++ b) i none =
        Fprettify.charFilterAux a i none ++
          Fprettify.charFilterAux b (i + a.length) none := by
  induction a with
  | nil =>
    intro b i _
    simp [Fprettify.charFilterAux]
  | cons c rest ih =>
    intro b i h
    have hc := h c (List.mem_cons_self _ _)
    have hstep : ∀ (s : List Char), Fprettify.charFilterAux (c :: s) i none =
        (i, c) :: Fprettify.charFilterAux s (i + 1) none := by
      intro s
      rw [Fprettify.charFilterAux]
      simp [hc.1, hc.2.1, hc.2.2]
    rw [List.cons_append, hstep (rest ++ b), hstep rest, List.cons_append]
    rw [ih b (i + 1) (fun x hx => h x (List.mem_cons_of_mem _ hx))]
    simp only [List.length_cons]
    rw [show i + 1 + rest.length = i + (rest.length + 1) from by omega]

/-- The head of the two-character window at an in-range position. -/
theorem pySlice_head (l : List Char) (p : Nat) (hp : p < l.length) :
    (Fprettify.pySlice l (p : Int) ((p : Int) + 2)).head? = l.get? p := by
  unfold Fprettify.pySlice
  dsimp only
  have h1 : (if (p : Int) < 0 then max 0 ((l.length : Int) + p)
      else min (p : Int) l.length) = (p : Int) := by
    rw [if_neg (by omega)]
    omega
  have h2 : (if (p : Int) + 2 < 0 then max 0 ((l.length : Int) + ((p : Int) + 2))
      else min ((p : Int) + 2) l.length) = min ((p : Int) + 2) l.length := by
    rw [if_neg (by omega)]
  rw [h1, h2]
  have h3 : ((p : Int)).toNat = p := by omega
  have h4 : (min ((p : Int) + 2) (l.length : Int)).toNat = min (p + 2) l.length := by
    omega
  rw [h3, h4]
  rw [List.head?_drop]
  rw [List.getElem?_take, if_pos (by omega)]
  rw [List.get?_eq_getElem?]

/-- A window whose head is not `(` or `[` matches no opening token. -/
theorem delOpenMatch_none_head (w : List Char) (c : Char) (hh : w.head? = some c)
    (h1 : (c == '(') = false) (h2 : (c == '[') = false) :
    Fprettify.delOpenMatch w = none := by
  cases w with
  | nil => rfl
  | cons c0 rest =>
    have hc0 : c0 = c := by simpa using hh
    subst hc0
    unfold Fprettify.delOpenMatch
    split <;> simp_all

/-- A window whose head is not `/`, `)` or `]` matches no closing token. -/
theorem delCloseMatch_none_head (w : List Char) (c : Char) (hh : w.head? = some c)
    (h1 : (c == '/') = false) (h2 : (c == ')') = false) (h3 : (c == ']') = false) :
    Fprettify.delCloseMatch w = none := by
  cases w with
  | nil => rfl
  | cons c0 rest =>
    have hc0 : c0 = c := by simpa using hh
    subst hc0
    unfold Fprettify.delCloseMatch
    split <;> simp_all

/-- An inert character leaves the aligner scan state untouched while the
delimiter level is zero. -/
theorem alignStep_plain (line : List Char) (relInd : Int)
    (st : Fprettify.AlignScanSt) (p : Nat) (c : Char) (hlvl : st.level = 0)
    (hin : Fprettify.alignInertChar c = true)
    (hh : (Fprettify.pySlice line (p : Int) ((p : Int) + 2)).head? = some c) :
    Fprettify.alignStep line false relInd st (p, c) = .ok st := by
  have hsplit : ∀ a b : Bool, (a || b) = false → a = false ∧ b = false := by decide
  have hnot : ∀ a : Bool, (!a) = true → a = false := by decide
  unfold Fprettify.alignInertChar at hin
  replace hin := hnot _ hin
  obtain ⟨hin, h7⟩ := hsplit _ _ hin
  obtain ⟨hin, h6⟩ := hsplit _ _ hin
  obtain ⟨hin, h5⟩ := hsplit _ _ hin
  obtain ⟨hin, h4⟩ := hsplit _ _ hin
  obtain ⟨hin, h3⟩ := hsplit _ _ hin
  obtain ⟨h1, h2⟩ := hsplit _ _ hin
  have ho := delOpenMatch_none_head _ _ hh h1 h2
  have hc := delCloseMatch_none_head _ _ hh h5 h3 h4
  unfold Fprettify.alignStep
  dsimp only
  rw [ho, hc]
  simp [hlvl, h6]

/-- A second top-level assignment character makes the aligner scan raise
`fprettifyInternalException`. -/
theorem alignStep_assign_raises (line : List Char) (relInd : Int)
    (st : Fprettify.AlignScanSt) (p : Nat) (hlvl : st.level = 0)
    (hpe : 0 < st.posEq)
    (hh : (Fprettify.pySlice line (p : Int) ((p : Int) + 2)).head? = some '=')
    (hrel : Fprettify.relOpMatchL (Fprettify.pySlice line (max 0 ((p : Int) - 1))
      (min ((p : Int) + 2) (line.length : Int))) = false) :
    Fprettify.alignStep line false relInd st (p, '=') = .error .internalException := by
  have ho := delOpenMatch_none_head _ _ hh (by decide) (by decide)
  have hc := delCloseMatch_none_head _ _ hh (by decide) (by decide) (by decide)
  unfold Fprettify.alignStep
  dsimp only
  rw [ho, hc]
  simp [hlvl, hrel, hpe]

/-- The first top-level assignment character records its position and keeps
the level at zero. -/
theorem alignStep_assign_first (line : List Char) (relInd : Int)
    (st : Fprettify.AlignScanSt) (p : Nat) (hlvl : st.level = 0)
    (hpe : st.posEq = 0) (hlen : p + 1 < line.length)
    (hh : (Fprettify.pySlice line (p : Int) ((p : Int) + 2)).head? = some '=')
    (hrel : Fprettify.relOpMatchL (Fprettify.pySlice line (max 0 ((p : Int) - 1))
      (min ((p : Int) + 2) (line.length : Int))) = false) :
    ∃ st', Fprettify.alignStep line false relInd st (p, '=') = .ok st' ∧
      st'.level = 0 ∧ 0 < st'.posEq := by
  have ho := delOpenMatch_none_head _ _ hh (by decide) (by decide)
  have hc := delCloseMatch_none_head _ _ hh (by decide) (by decide) (by decide)
  have hpg : Fprettify.pyGet line ((p : Int) + 1) =
      some (line.get ⟨p + 1, hlen⟩) := by
    unfold Fprettify.pyGet
    rw [if_neg (by omega)]
    rw [show ((p : Int) + 1).toNat = p + 1 from by omega]
    exact List.get?_eq_get hlen
  unfold Fprettify.alignStep
  dsimp only
  rw [ho, hc]
  by_cases heq : Fprettify.eqLinebreak_search line = true
  · simp only [ite_self, hlvl, beq_self_eq_true, if_pos, Bool.not_false,
      Bool.true_and, beq_self_eq_true, if_pos, hrel, Bool.not_false, if_pos,
      hpe, Nat.lt_irrefl, if_neg, hpg, heq, Bool.not_true, Bool.false_eq_true]
    simp only [gt_iff_lt, Nat.lt_irrefl, if_false, if_neg]
    exact ⟨_, rfl, rfl, Nat.succ_pos p⟩
  · rw [Bool.not_eq_true] at heq
    simp only [ite_self, hlvl, beq_self_eq_true, if_pos, Bool.not_false,
      Bool.true_and, hrel, hpe, Nat.lt_irrefl, if_neg, hpg, heq,
      Bool.false_eq_true, if_false, gt_iff_lt, if_true, ite_true, ite_false]
    exact ⟨_, rfl, rfl, Nat.succ_pos p⟩

/-- Folding the scan over a fragment segment of plain characters is a
no-op while the level is zero. -/
theorem foldlM_plain_seg (line : List Char) (relInd : Int)
    (st : Fprettify.AlignScanSt) (seg : List Char) (i : Nat)
    (hlvl : st.level = 0)
    (hplain : ∀ c ∈ seg, Fprettify.plainChar c = true)
    (hcorr : ∀ j, j < seg.length → line.get? (i + j) = seg.get? j) :
    (Fprettify.charFilterAux seg i none).foldlM
      (Fprettify.alignStep line false relInd) st = .ok st := by
  apply foldlM_ok_of_fix
  intro x hx
  obtain ⟨j, hj, hx1, hget⟩ := charFilterAux_get seg i none x hx
  have hpc := hplain x.2 (charFilterAux_mem seg i none x hx)
  have hinert : Fprettify.alignInertChar x.2 = true := by
    simp only [Fprettify.plainChar, Bool.and_eq_true] at hpc
    exact hpc.1
  have hline : line.get? x.1 = some x.2 := by
    rw [hx1, hcorr j hj, hget]
  have hlt : x.1 < line.length := by
    rcases List.get?_eq_some.mp hline with ⟨h, _⟩
    exact h
  have hh : (Fprettify.pySlice line (x.1 : Int) ((x.1 : Int) + 2)).head? =
      some x.2 := by
    rw [pySlice_head line x.1 hlt]
    exact hline
  have hstep := alignStep_plain line relInd st x.1 x.2 hlvl hinert hh
  simpa using hstep

/-- C2 (amended): the single-assignment check lives in the Continuation
Aligner's scan, not in the Token Formatter: a fragment with two top-level
assignment characters (separated by plain text, neither part of a
relational operator) makes `__align_line_continuations` raise
`fprettifyInternalException` for every aligner entry state with level 0,
and the whole `process_lines_of_fline` pass aborts with that exception for
any non-declaration logical line. -/
theorem C2_aligner_single_assign_amended
    (u v w : List Char)
    (hu : ∀ c ∈ u, Fprettify.plainChar c = true)
    (hv : ∀ c ∈ v, Fprettify.plainChar c = true)
    (hrel1 : Fprettify.relOpMatchL (Fprettify.pySlice (u ++ '=' :: (v ++ '=' :: w))
      (max 0 ((u.length : Int) - 1))
      (min ((u.length : Int) + 2)
        (((u ++ '=' :: (v ++ '=' :: w)).length : Int)))) = false)
    (hrel2 : Fprettify.relOpMatchL (Fprettify.pySlice (u ++ '=' :: (v ++ '=' :: w))
      (max 0 (((u.length + 1 + v.length : Nat) : Int) - 1))
      (min (((u.length + 1 + v.length : Nat) : Int) + 2)
        (((u ++ '=' :: (v ++ '=' :: w)).length : Int)))) = false) :
    (∀ (indentSize : Int) (il : List Int),
      Fprettify.align_line_continuations (u ++ '=' :: (v ++ '=' :: w)) false
        indentSize ⟨il, 0⟩ = .error .internalException) ∧
    (∀ (f_line : List Char) (r rc : Int) (st2 : Fprettify.IndState),
      Fprettify.VAR_DECL_match f_line = false →
      Fprettify.PUBLIC_RE.matchesPre f_line = false →
      Fprettify.advance f_line [u ++ '=' :: (v ++ '=' :: w)] r rc [] st2 =
        .error .internalException) := by
  have hclean : ∀ (s : List Char), (∀ c ∈ s, Fprettify.plainChar c = true) →
      ∀ c ∈ s, (c == '!') = false ∧ (c == '"') = false ∧
        (c == Fprettify.squote) = false := by
    intro s hs c hc
    have hp := hs c hc
    unfold Fprettify.plainChar at hp
    rw [Bool.and_eq_true] at hp
    have hnot : ∀ a : Bool, (!a) = true → a = false := by decide
    have hsplit : ∀ a b : Bool, (a || b) = false → a = false ∧ b = false := by decide
    have h2 := hnot _ hp.2
    obtain ⟨h2, hq2⟩ := hsplit _ _ h2
    obtain ⟨hb, hq1⟩ := hsplit _ _ h2
    exact ⟨hb, hq1, hq2⟩
  have hstepEq : ∀ (s : List Char) (i : Nat),
      Fprettify.charFilterAux ('=' :: s) i none =
        (i, '=') :: Fprettify.charFilterAux s (i + 1) none := fun s i => rfl
  have hbind : ∀ {α β : Type} (f : α → Except Fprettify.PyErr β) (a : α),
      ((Except.ok a : Except Fprettify.PyErr α) >>= f) = f a := fun f a => rfl
  have hlenL : (u ++ '=' :: (v ++ '=' :: w)).length =
      u.length + 1 + v.length + 1 + w.length := by
    simp only [List.length_append, List.length_cons]
    omega
  have hgetm1 : (u ++ '=' :: (v ++ '=' :: w)).get? u.length = some '=' := by
    rw [List.get?_eq_getElem?, List.getElem?_append, if_neg (Nat.lt_irrefl _),
      Nat.sub_self]
    exact List.getElem?_cons_zero
  have hgetm2 : (u ++ '=' :: (v ++ '=' :: w)).get? (u.length + 1 + v.length) =
      some '=' := by
    rw [List.get?_eq_getElem?, List.getElem?_append, if_neg (by omega),
      show u.length + 1 + v.length - u.length = v.length + 1 from by omega,
      List.getElem?_cons_succ, List.getElem?_append, if_neg (Nat.lt_irrefl _),
      Nat.sub_self]
    exact List.getElem?_cons_zero
  have hh1 : (Fprettify.pySlice (u ++ '=' :: (v ++ '=' :: w)) (u.length : Int)
      ((u.length : Int) + 2)).head? = some '=' := by
    rw [pySlice_head _ _ (by rw [hlenL]; omega)]
    exact hgetm1
  have hh2 : (Fprettify.pySlice (u ++ '=' :: (v ++ '=' :: w))
      ((u.length + 1 + v.length : Nat) : Int)
      (((u.length + 1 + v.length : Nat) : Int) + 2)).head? = some '=' := by
    rw [pySlice_head _ _ (by rw [hlenL]; omega)]
    exact hgetm2
  have hcorru : ∀ j, j < u.length →
      (u ++ '=' :: (v ++ '=' :: w)).get? (0 + j) = u.get? j := by
    intro j hj
    rw [Nat.zero_add, List.get?_eq_getElem?, List.get?_eq_getElem?,
      List.getElem?_append, if_pos hj]
  have hcorrv : ∀ j, j < v.length →
      (u ++ '=' :: (v ++ '=' :: w)).get? (u.length + 1 + j) = v.get? j := by
    intro j hj
    rw [List.get?_eq_getElem?, List.get?_eq_getElem?, List.getElem?_append,
      if_neg (by omega),
      show u.length + 1 + j - u.length = j + 1 from by omega,
      List.getElem?_cons_succ, List.getElem?_append, if_pos hj]
  have hmain : ∀ (indentSize : Int) (il : List Int),
      Fprettify.align_line_continuations (u ++ '=' :: (v ++ '=' :: w)) false
        indentSize ⟨il, 0⟩ = .error .internalException := by
    intro indentSize il
    unfold Fprettify.align_line_continuations
    dsimp only
    rw [Fprettify.charFilterList]
    rw [charFilterAux_append_clean u ('=' :: (v ++ '=' :: w)) 0 (hclean u hu)]
    rw [Nat.zero_add]
    rw [hstepEq (v ++ '=' :: w) u.length]
    rw [charFilterAux_append_clean v ('=' :: w) (u.length + 1) (hclean v hv)]
    rw [hstepEq w (u.length + 1 + v.length)]
    rw [List.foldlM_append]
    rw [foldlM_plain_seg _ (il.getLastD 0) ⟨il, 0, 0, [], [], [], [], -1⟩ u 0
      rfl hu hcorru]
    rw [hbind, List.foldlM_cons]
    obtain ⟨st1, hst1, hlvl1, hpe1⟩ := alignStep_assign_first
      (u ++ '=' :: (v ++ '=' :: w)) (il.getLastD 0) ⟨il, 0, 0, [], [], [], [], -1⟩
      u.length rfl rfl (by rw [hlenL]; omega) hh1 hrel1
    rw [hst1, hbind, List.foldlM_append]
    rw [foldlM_plain_seg _ (il.getLastD 0) st1 v (u.length + 1) hlvl1 hv hcorrv]
    rw [hbind, List.foldlM_cons]
    rw [alignStep_assign_raises (u ++ '=' :: (v ++ '=' :: w)) (il.getLastD 0) st1
      (u.length + 1 + v.length) hlvl1 hpe1 hh2 hrel2]
    rfl
  refine ⟨hmain, ?_⟩
  intro f_line r rc st2 hvd hpub
  unfold Fprettify.advance
  dsimp only
  simp only [List.isEmpty_nil, reduceIte]
  have hap : Fprettify.aligner_process f_line [u ++ '=' :: (v ++ '=' :: w)] rc =
      .error .internalException := by
    unfold Fprettify.aligner_process
    rw [Fprettify.aligner_process.go]
    rw [hvd, hpub]
    simp only [Bool.or_self]
    rw [hmain rc [0]]
  rw [hap]

/-- C2 witness: the fragment `a = b = c` aborts the aligner scan and the
whole indentation pass with `fprettifyInternalException`. -/
theorem C2_aligner_single_assign_amended_witness :
    Fprettify.align_line_continuations "a = b = c\n".data false 3 ⟨[0], 0⟩ =
      .error .internalException ∧
    Fprettify.advance "a = b = c".data ["a = b = c\n".data] 2 3 [] ⟨[0], [0]⟩ =
      .error .internalException := by
  have h := C2_aligner_single_assign_amended "a ".data " b ".data " c\n".data
    (by decide) (by decide) (by decide) (by decide)
  exact ⟨h.1 3 [0], h.2 "a = b = c".data 2 3 ⟨[0], [0]⟩ (by decide) (by decide)⟩

/-- C1 counterexample: `end do interface` matches the closing pattern for
DO (kind 1) *and* the opening pattern for INTERFACE (kind 7); inside an
IF block (stack `[0]`) the net scope stack is unchanged rather than
popped, and on this invalid close (popped kind 7 ≠ 1) the IndentStack is
pushed and the fragments are shifted rather than left raw. -/
theorem C1_close_pop_counterexample :
    ¬ (∀ (f_line : List Char) (lines : List (List Char)) (r rc : Int)
         (st : Fprettify.IndState) (K : Nat),
        K ∈ Fprettify.endMatches f_line → st.scopes ≠ [] →
        ∀ res, Fprettify.advance f_line lines r rc [] st = .ok res →
          res.state.scopes = st.scopes.dropLast ∧
          (st.scopes.getLast? ≠ some K → res.state.indents = st.indents)) := by
  intro h
  have h1 := h "end do interface".data ["end do interface\n".data] 3 3
    ⟨[0], [0, 3]⟩ 1 (by decide) (by simp)
    ⟨⟨[0], [0, 3, 6]⟩, [3], []⟩ (by rfl)
  exact absurd h1.1 (by decide)

/-- C1 amended: for a logical line whose only classification is "closes K"
(one closing match, no opening and no continuation match), with a nonempty
ScopeStack of top `k`: the ScopeStack is popped unconditionally; an
invalid close (`k ≠ K`) logs the warning, leaves the IndentStack untouched
and delivers the raw aligner offsets unshifted; a valid close (`k = K`,
with at least two indent frames present) pops the IndentStack and shifts
the fragments by the post-pop top. -/
theorem C1_close_pop_amended (f_line : List Char) (lines : List (List Char))
    (r rc : Int) (st : Fprettify.IndState) (K k : Nat) (br li0 : List Int)
    (hend : Fprettify.endMatches f_line = [K])
    (hnew : Fprettify.newMatches f_line = [])
    (hcon : Fprettify.conMatches f_line = [])
    (htop : st.scopes.getLast? = some k)
    (hbr : Fprettify.aligner_process f_line lines rc = .ok br)
    (hli : Fprettify.buildLineIndents lines.length br = .ok li0) :
    (k ≠ K → Fprettify.advance f_line lines r rc [] st =
        .ok ⟨⟨st.scopes.dropLast, st.indents⟩, li0, [.invalidEnd]⟩) ∧
    (k = K → 2 ≤ st.indents.length →
        Fprettify.negGetI st.indents 2 = some (st.indents.dropLast.getLastD 0) ∧
        Fprettify.advance f_line lines r rc [] st =
          .ok ⟨⟨st.scopes.dropLast, st.indents.dropLast⟩,
               li0.map (· + st.indents.dropLast.getLastD 0), []⟩) := by
  have hs : st.scopes ≠ [] := by
    intro hh
    rw [hh] at htop
    simp at htop
  have hsE : st.scopes.isEmpty = false := by
    cases hcase : st.scopes with
    | nil => exact absurd hcase hs
    | cons _ _ => rfl
  have hgld : st.scopes.getLastD 0 = k := by
    rw [List.getLastD_eq_getLast?, htop]
    rfl
  have hloop : Fprettify.endLoop [K] st.scopes false = (st.scopes.dropLast, k == K) := by
    rw [Fprettify.endLoop, if_neg (by rw [hsE]; simp)]
    rw [Fprettify.endLoop]
    rw [Bool.false_or, hgld]
  have hadv := advance_eq_core f_line lines r rc [] st br li0 hbr hli
  rw [hnew, hcon, hend] at hadv
  constructor
  · intro hkK
    have hbeq : (k == K) = false := beq_eq_false_iff_ne.mpr hkK
    rw [hadv]
    unfold Fprettify.advanceCore
    dsimp only
    simp only [List.isEmpty_nil, List.isEmpty_cons, List.append_nil, hloop, hbeq,
      Bool.not_true, Bool.not_false, reduceIte]
    rfl
  · intro hkK hdep
    have h2 := negGetI_two st.indents hdep
    have hine : st.indents ≠ [] := by
      intro hh
      rw [hh] at hdep
      simp at hdep
    have hlast : st.indents.getLast? = some (st.indents.getLast hine) :=
      List.getLast?_eq_getLast _ hine
    refine ⟨h2, ?_⟩
    subst hkK
    rw [hadv]
    unfold Fprettify.advanceCore
    dsimp only
    simp only [List.isEmpty_nil, List.isEmpty_cons, List.append_nil, hloop,
      beq_self_eq_true, h2, shiftBy_some, hlast,
      Bool.not_true, Bool.not_false, reduceIte]
    rfl

/-- Witness for C1 amended: `end if` against a DO top (invalid close) and
against an IF top (valid close). -/
theorem C1_close_pop_amended_witness :
    Fprettify.advance "end if".data ["end if\n".data] 3 3 [] ⟨[1], [0, 3]⟩ =
      .ok ⟨⟨[], [0, 3]⟩, [0], [.invalidEnd]⟩ ∧
    Fprettify.advance "end if".data ["end if\n".data] 3 3 [] ⟨[0], [0, 3]⟩ =
      .ok ⟨⟨[], [0]⟩, [0], []⟩ := by
  constructor
  · have h := (C1_close_pop_amended "end if".data ["end if\n".data] 3 3
      ⟨[1], [0, 3]⟩ 0 1 [0] [0] (by decide) (by decide) (by decide) rfl
      (by rfl) (by rfl)).1 (by decide)
    simpa using h
  · have h := ((C1_close_pop_amended "end if".data ["end if\n".data] 3 3
      ⟨[0], [0, 3]⟩ 0 0 [0] [0] (by decide) (by decide) (by decide) rfl
      (by rfl) (by rfl)).2 rfl (by norm_num)).2
    simpa using h

/-- C4: for a logical line classified as continuing (continuation match,
no opening and no closing match): with stack top `k` among the matching
continuation kinds and at least two indent frames, every fragment is
shifted by the second-from-top IndentStack value (the enclosing frame) and
both stacks stay untouched; a continuation whose kinds do not include the
stack top (or an empty stack) logs the warning and leaves the fragments at
their raw offsets. -/
theorem C4_continue_alignment (f_line : List Char) (lines : List (List Char))
    (r rc : Int) (st : Fprettify.IndState) (k : Nat) (br li0 : List Int)
    (hnew : Fprettify.newMatches f_line = [])
    (hend : Fprettify.endMatches f_line = [])
    (hcon : Fprettify.conMatches f_line ≠ [])
    (hbr : Fprettify.aligner_process f_line lines rc = .ok br)
    (hli : Fprettify.buildLineIndents lines.length br = .ok li0) :
    (st.scopes.getLast? = some k → (Fprettify.conMatches f_line).contains k = true →
      2 ≤ st.indents.length →
      Fprettify.negGetI st.indents 2 = some (st.indents.dropLast.getLastD 0) ∧
      Fprettify.advance f_line lines r rc [] st =
        .ok ⟨⟨st.scopes, st.indents⟩,
             li0.map (· + st.indents.dropLast.getLastD 0), []⟩) ∧
    ((match st.scopes.getLast? with
      | some t => (Fprettify.conMatches f_line).contains t = false
      | none => True) →
      Fprettify.advance f_line lines r rc [] st =
        .ok ⟨⟨st.scopes, st.indents⟩, li0, [.invalidCon]⟩) := by
  have hclE : (Fprettify.conMatches f_line).isEmpty = false := by
    cases hc : Fprettify.conMatches f_line with
    | nil => exact absurd hc hcon
    | cons _ _ => rfl
  have hadv := advance_eq_core f_line lines r rc [] st br li0 hbr hli
  rw [hnew, hend] at hadv
  constructor
  · intro htop hcont hdep
    have h2 := negGetI_two st.indents hdep
    refine ⟨h2, ?_⟩
    rw [hadv]
    unfold Fprettify.advanceCore
    dsimp only
    simp only [List.isEmpty_nil, hclE, List.append_nil, htop, hcont, h2, shiftBy_some,
      Bool.not_true, Bool.not_false, reduceIte]
    rfl
  · intro hinv
    rw [hadv]
    unfold Fprettify.advanceCore
    dsimp only
    rcases hcase : st.scopes.getLast? with _ | t
    · simp only [List.isEmpty_nil, hclE, List.append_nil, hcase,
        Bool.not_true, Bool.not_false, reduceIte]
      rfl
    · rw [hcase] at hinv
      simp only [List.isEmpty_nil, hclE, List.append_nil, hcase, hinv,
        Bool.not_true, Bool.not_false, reduceIte]
      rfl

/-- Witness for C4: `else` on top of an IF scope aligns to the enclosing
frame; `else` on top of a DO scope is an invalid continuation. -/
theorem C4_continue_alignment_witness :
    Fprettify.advance "else".data ["else\n".data] 3 3 [] ⟨[0], [0, 3]⟩ =
      .ok ⟨⟨[0], [0, 3]⟩, [0], []⟩ ∧
    Fprettify.advance "else".data ["else\n".data] 3 3 [] ⟨[1], [0, 3]⟩ =
      .ok ⟨⟨[1], [0, 3]⟩, [0], [.invalidCon]⟩ := by
  constructor
  · have h := ((C4_continue_alignment "else".data ["else\n".data] 3 3 ⟨[0], [0, 3]⟩
      0 [0] [0] (by decide) (by decide) (by decide) (by rfl) (by rfl)).1
      rfl (by decide) (by norm_num)).2
    simpa using h
  · have h := (C4_continue_alignment "else".data ["else\n".data] 3 3 ⟨[1], [0, 3]⟩
      0 [0] [0] (by decide) (by decide) (by decide) (by rfl) (by rfl)).2
      (by show (Fprettify.conMatches "else".data).contains 1 = false; decide)
    simpa using h

/-- The stack footprint of one `advanceCore` call: the scope stack changes
exactly by the new-scope pushes then the per-closing-match pops, and the
indent stack changes only by an opening push or a (valid) closing pop. -/
theorem advanceCore_frame (nl cl el : List Nat) (r : Int) (st : Fprettify.IndState)
    (li0 : List Int) (res : Fprettify.AdvResult)
    (hok : Fprettify.advanceCore nl cl el r st li0 = .ok res) :
    res.state.scopes = Fprettify.popN (st.scopes ++ nl) el.length ∧
    (nl ≠ [] → ∃ v, res.state.indents = st.indents ++ [v]) ∧
    (nl = [] → res.state.indents = st.indents ∨
      (el ≠ [] ∧ (Fprettify.endLoop el st.scopes false).2 = true ∧
        res.state.indents = st.indents.dropLast)) := by
  unfold Fprettify.advanceCore at hok
  dsimp only at hok
  split at hok
  case isTrue hisnew =>
    split at hok
    case h_1 => exact Except.noConfusion hok
    case h_2 li hli =>
      split at hok
      case h_1 => exact Except.noConfusion hok
      case h_2 oldInd hold =>
        cases hok
        refine ⟨endLoop_fst el (st.scopes ++ nl) false, fun _ => ⟨r + oldInd, rfl⟩,
          fun hnl => ?_⟩
        rw [hnl] at hisnew
        simp at hisnew
  case isFalse hisnew =>
    have hnl : nl = [] := by
      simp only [Bool.not_eq_true', Bool.not_eq_false] at hisnew
      exact List.isEmpty_iff.mp hisnew
    split at hok
    case isTrue hiscon =>
      split at hok
      case isTrue hvc =>
        cases hok
        exact ⟨endLoop_fst el (st.scopes ++ nl) false,
          fun hne => absurd hnl hne, fun _ => Or.inl rfl⟩
      case isFalse hvc =>
        split at hok
        case h_1 => exact Except.noConfusion hok
        case h_2 li hli =>
          cases hok
          exact ⟨endLoop_fst el (st.scopes ++ nl) false,
            fun hne => absurd hnl hne, fun _ => Or.inl rfl⟩
    case isFalse hiscon =>
      split at hok
      case isTrue hisend =>
        have hel : el ≠ [] := by
          intro hh
          rw [hh] at hisend
          simp at hisend
        split at hok
        case isTrue hve =>
          cases hok
          exact ⟨endLoop_fst el (st.scopes ++ nl) false,
            fun hne => absurd hnl hne, fun _ => Or.inl rfl⟩
        case isFalse hve =>
          split at hok
          case h_1 => exact Except.noConfusion hok
          case h_2 li hli =>
            split at hok
            case h_1 => exact Except.noConfusion hok
            case h_2 lastv hlast =>
              cases hok
              refine ⟨endLoop_fst el (st.scopes ++ nl) false,
                fun hne => absurd hnl hne, fun _ => Or.inr ⟨hel, ?_, rfl⟩⟩
              rw [hnl, List.append_nil] at hve
              cases h2 : (Fprettify.endLoop el st.scopes false).2
              · rw [h2] at hve
                exact absurd rfl hve
              · rfl
      case isFalse hisend =>
        split at hok
        case h_1 => exact Except.noConfusion hok
        case h_2 li hli =>
          cases hok
          exact ⟨endLoop_fst el (st.scopes ++ nl) false,
            fun hne => absurd hnl hne, fun _ => Or.inl rfl⟩

/-- C10: a call on a logical line matching neither an opening nor a
closing pattern (including pure continuation lines) leaves both stacks
exactly as they were; in general the ScopeStack changes only by the
opening-match pushes followed by one pop per closing match, and the
IndentStack changes only by an opening push or a pop on a valid close
(one whose end-scope loop found a popped kind that matched) — an invalid
close only warns and leaves the IndentStack untouched. -/
theorem C10_frame_effect (f_line : List Char) (lines : List (List Char))
    (r rc : Int) (manual : List Int) (st : Fprettify.IndState)
    (res : Fprettify.AdvResult)
    (hok : Fprettify.advance f_line lines r rc manual st = .ok res) :
    (Fprettify.newMatches f_line = [] → Fprettify.endMatches f_line = [] →
      res.state.scopes = st.scopes ∧ res.state.indents = st.indents) ∧
    res.state.scopes =
      Fprettify.popN (st.scopes ++ Fprettify.newMatches f_line)
        (Fprettify.endMatches f_line).length ∧
    (Fprettify.newMatches f_line ≠ [] → ∃ v, res.state.indents = st.indents ++ [v]) ∧
    (Fprettify.newMatches f_line = [] → res.state.indents = st.indents ∨
      (Fprettify.endMatches f_line ≠ [] ∧
        (Fprettify.endLoop (Fprettify.endMatches f_line) st.scopes false).2 = true ∧
        res.state.indents = st.indents.dropLast)) := by
  unfold Fprettify.advance at hok
  dsimp only at hok
  split at hok
  case h_1 => exact Except.noConfusion hok
  case h_2 br hbr =>
    split at hok
    case h_1 => exact Except.noConfusion hok
    case h_2 li0 hli =>
      obtain ⟨hsc, hpush, hkeep⟩ := advanceCore_frame _ _ _ _ _ _ _ hok
      refine ⟨fun hnl hel => ?_, hsc, hpush, hkeep⟩
      constructor
      · rw [hsc, hnl, hel]
        simp [Fprettify.popN]
      · rcases hkeep hnl with h | ⟨hel2, _, _⟩
        · exact h
        · exact absurd hel hel2

/-- Witness for C10 at the unclassified line `x = 1`. -/
theorem C10_frame_effect_witness :
    Fprettify.advance "x = 1".data ["x = 1\n".data] 3 3 [] ⟨[0], [0, 3]⟩ =
      .ok ⟨⟨[0], [0, 3]⟩, [3], []⟩ ∧
    ((⟨⟨[0], [0, 3]⟩, [3], []⟩ : Fprettify.AdvResult).state.scopes = [0] ∧
     (⟨⟨[0], [0, 3]⟩, [3], []⟩ : Fprettify.AdvResult).state.indents = [0, 3]) :=
  ⟨by rfl,
   (C10_frame_effect "x = 1".data ["x = 1\n".data] 3 3 [] ⟨[0], [0, 3]⟩
      ⟨⟨[0], [0, 3]⟩, [3], []⟩ (by rfl)).1 (by decide) (by decide)⟩

/-- C5 counterexample: the output guard measures only the code length
(the character filter stops at the comment), so a fragment with a long
trailing comment is written at its computed indent far past column 132,
with no warning — not right-justified as the claim requires. -/
theorem C5_length_guard_counterexample :
    ¬ (∀ (ind : Int) (line orig : List Char), 0 ≤ ind → line.getLast? = some '\n' →
        ((ind + ((line.length : Int) - 1) ≤ 132 →
           Fprettify.emitLine true false false ind 0 line orig =
             (Fprettify.spaces
                (ind + ((line.length : Int) - (Fprettify.lstripSp line).length)) ++
                Fprettify.lstripSp line, false)) ∧
         (132 < ind + ((line.length : Int) - 1) → (line.length : Int) - 1 ≤ 132 →
           Fprettify.emitLine true false false ind 0 line orig =
             (Fprettify.spaces (133 - ((Fprettify.lstripSp line).length : Int)) ++
                Fprettify.lstripSp line, true)) ∧
         (132 < (line.length : Int) - 1 →
           Fprettify.emitLine true false false ind 0 line orig = (orig, true)))) := by
  intro h
  obtain ⟨-, h2, -⟩ :=
    h 100 "x = 1 !cccccccccccccccccccccccccccccccccccccccc\n".data
      "x = 1 !cccccccccccccccccccccccccccccccccccccccc\n".data
      (by norm_num) (by rfl)
  have h3 := h2 (by decide) (by decide)
  have h4 : Fprettify.emitLine true false false 100 0
      "x = 1 !cccccccccccccccccccccccccccccccccccccccc\n".data
      "x = 1 !cccccccccccccccccccccccccccccccccccccccc\n".data =
      (Fprettify.spaces 100 ++ "x = 1 !cccccccccccccccccccccccccccccccccccccccc\n".data,
       false) := by rfl
  rw [h4] at h3
  have h5 := congrArg Prod.snd h3
  simp at h5
